import Mathlib

/-
Verification development for the Anzen peer-mesh session manager.

The definitions below are a shallow embedding of the frontend source:
 - `src/frontend/src/utils/fileTransfer.js` (sendFile / reassembleFile / isMedia),
 - `src/frontend/src/hooks/useWebRTC.js` (the mesh manager: peerConnections,
   dataChannels, inboundFiles, pendingMessages and the operations on them),
 - `RoomConnection` (the per-room orchestrator: join timeout, relay dispatch),
 - the admission-control handlers of the room list component.

JS `Map`s are modelled as association lists over `String` keys with
`Map.get`/`Map.set`/`Map.delete` translated literally (`lookupA`/`setA`/`eraseA`).
Machine integers do not occur (all counts are small naturals).  The WebRTC
platform objects the hook drives (`RTCPeerConnection`, `RTCDataChannel`) are
modelled by their documented observable state: the signaling state machine
(`stable` / `have-local-offer` / `have-remote-offer`, with
`setRemoteDescription(answer)` legal only in `have-local-offer`), the
connection state string, and the data-channel `readyState` string.
-/

namespace Anzen

/-- Raw bytes of a file or of one binary chunk. -/
abbrev Bytes := List Nat

/-- Association-list lookup, modelling JS `Map.get` (first match). -/
def lookupA {α : Type} : List (String × α) → String → Option α
  | [], _ => none
  | (k, v) :: rest, key => if k = key then some v else lookupA rest key

/-- JS `Map.set`: replace the entry in place if the key exists, else append. -/
def setA {α : Type} : List (String × α) → String → α → List (String × α)
  | [], key, v => [(key, v)]
  | (k, w) :: rest, key, v =>
    if k = key then (key, v) :: rest else (k, w) :: setA rest key v

/-- JS `Map.delete`: remove the entry for the key, if present. -/
def eraseA {α : Type} : List (String × α) → String → List (String × α)
  | [], _ => []
  | (k, w) :: rest, key => if k = key then rest else (k, w) :: eraseA rest key

/-- Update the value stored at a key in place, if present. -/
def updateA {α : Type} : List (String × α) → String → (α → α) → List (String × α)
  | [], _, _ => []
  | (k, w) :: rest, key, f =>
    if k = key then (key, f w) :: rest else (k, w) :: updateA rest key f

/-- Apply a function to every stored value, keeping the keys. -/
def mapValA {α : Type} (g : α → α) (l : List (String × α)) : List (String × α) :=
  l.map (fun kv => (kv.1, g kv.2))

/-- The keys of an association list, in order. -/
def keysOf {α : Type} (l : List (String × α)) : List String := l.map Prod.fst

/-- The keys are pairwise distinct (the structural invariant of a JS `Map`). -/
def keysNodup {α : Type} (l : List (String × α)) : Prop := (keysOf l).Nodup

instance {α : Type} (l : List (String × α)) : Decidable (keysNodup l) := by
  unfold keysNodup
  infer_instance

/-- JS `x || d` on strings: the empty string is the only falsy string. -/
def jsOr (s d : String) : String := if s = "" then d else s

/-! ### FramingCodec: fileTransfer.js -/

/-- `CHUNK_SIZE = 16 * 1024` bytes per binary chunk. -/
def CHUNK_SIZE : Nat := 16 * 1024

/-- `Math.ceil(len / CHUNK_SIZE)` for a natural byte length. -/
def totalChunksFor (len : Nat) : Nat := (len + CHUNK_SIZE - 1) / CHUNK_SIZE

/-- `ArrayBuffer.slice(a, b)`: the bytes of the half-open range `[a, b)`. -/
def jsSlice (buf : Bytes) (a b : Nat) : Bytes := (buf.drop a).take (b - a)

/-- The chunk list produced by the send loop of `sendFile`: chunk `i` is
`buffer.slice(i*CHUNK_SIZE, min(i*CHUNK_SIZE + CHUNK_SIZE, byteLength))`. -/
def fileChunks (buf : Bytes) : List Bytes :=
  (List.range (totalChunksFor buf.length)).map
    (fun i => jsSlice buf (i * CHUNK_SIZE) (min (i * CHUNK_SIZE + CHUNK_SIZE) buf.length))

/-- Recursive reformulation of the chunk list (take a chunk, recurse on the rest);
proved equal to `fileChunks` below and used for the round-trip proof. -/
def chunksRec (buf : Bytes) : List Bytes :=
  if h : buf = [] then []
  else buf.take CHUNK_SIZE :: chunksRec (buf.drop CHUNK_SIZE)
termination_by buf.length
decreasing_by
  simp [List.length_drop, CHUNK_SIZE]
  have hpos : 0 < buf.length := List.length_pos.mpr h
  omega

/-- A `File` as `sendFile` consumes it: name, MIME type (`file.type`, possibly
empty), and its bytes (`file.arrayBuffer()`; `file.size` is the byte count). -/
structure FileData where
  name : String
  mimeType : String
  bytes : Bytes
deriving Repr, DecidableEq

/-- The `senderMeta` argument of `sendFile` (default `{}` gives empty fields). -/
structure SenderMeta where
  senderId : String := ""
  senderName : String := ""
  avatarSeed : String := ""
  caption : String := ""
deriving Repr, DecidableEq

/-- The JSON `file-meta` control frame. -/
structure FileMeta where
  name : String
  mimeType : String
  size : Nat
  totalChunks : Nat
  transferId : String
  senderId : String
  senderName : String
  avatarSeed : String
  caption : String
deriving Repr, DecidableEq

/-- The `file-meta` frame `sendFile` builds (field defaults as in the source:
`senderMeta.senderId || ''`, `senderMeta.senderName || 'Peer'`, ...). -/
def mkFileMeta (file : FileData) (sm : SenderMeta) (tid : String) : FileMeta :=
  { name := file.name
    mimeType := file.mimeType
    size := file.bytes.length
    totalChunks := totalChunksFor file.bytes.length
    transferId := tid
    senderId := jsOr sm.senderId ""
    senderName := jsOr sm.senderName "Peer"
    avatarSeed := jsOr sm.avatarSeed ""
    caption := jsOr sm.caption "" }

/-- One frame on a data channel: the JSON control frames, a raw binary chunk,
or an unparseable string (dropped by the receiver). -/
inductive Frame
  | text (senderId senderName avatarSeed : String) (timestamp : Nat) (body : String)
  | fileMeta (meta : FileMeta)
  | chunk (bytes : Bytes)
  | fileEnd
  | notJson (raw : String)
deriving Repr, DecidableEq

/-- The whole frame sequence `sendFile` emits for one file: exactly one
`file-meta`, then the chunks in ascending order, then exactly one `file-end`. -/
def sendFileFrames (file : FileData) (sm : SenderMeta) (tid : String) : List Frame :=
  Frame.fileMeta (mkFileMeta file sm tid) ::
    ((fileChunks file.bytes).map Frame.chunk ++ [Frame.fileEnd])

/-- The `Blob` built by `reassembleFile`: concatenated bytes plus the blob's
MIME type, which falls back to `application/octet-stream` for an empty one. -/
structure BlobData where
  bytes : Bytes
  blobType : String
deriving Repr, DecidableEq

/-- `reassembleFile(chunks, meta)`: concatenate the chunks in receipt order. -/
def reassembleFile (chunks : List Bytes) (meta : FileMeta) : BlobData :=
  { bytes := chunks.flatten
    blobType := jsOr meta.mimeType "application/octet-stream" }

/-- JS `String.prototype.startsWith`, modelled on the character list. -/
def strStartsWith (s p : String) : Bool := p.data.isPrefixOf s.data

/-- `isMedia`: displayable image or video MIME type. -/
def isMedia (mimeType : String) : Bool :=
  strStartsWith mimeType "image/" || strStartsWith mimeType "video/"

/-! ### The mesh manager state (useWebRTC.js) -/

/-- The WebRTC signaling state of an `RTCPeerConnection`, as far as the hook
exercises it.  `setRemoteDescription` with an answer succeeds exactly in
`haveLocalOffer` (otherwise the platform throws and the connection is
unchanged). -/
inductive SigState
  | stable
  | haveLocalOffer
  | haveRemoteOffer
deriving Repr, DecidableEq

/-- Which side created the record: `initiateCall` (initiator) or
`handleOffer` (responder). -/
inductive Role
  | initiator
  | responder
deriving Repr, DecidableEq

/-- One `RTCPeerConnection` as stored in the `peerConnections` map.  `id` is a
creation counter distinguishing a fresh record from a superseded one;
`connState` is the platform's `connectionState` string. -/
structure PC where
  id : Nat
  role : Role
  sig : SigState
  connState : String
  candidates : List String
deriving Repr, DecidableEq

/-- One `RTCDataChannel`: its `readyState` string and the trace of frames the
local side has pushed through `channel.send`. -/
structure DC where
  ready : String
  sent : List Frame
deriving Repr, DecidableEq

/-- An in-progress inbound transfer: `{ meta, chunks: [] }`. -/
structure InboundEntry where
  meta : FileMeta
  chunks : List Bytes
deriving Repr, DecidableEq

/-- One entry of the outbound queue: `{ type: 'text', payload: msg }`. -/
structure QueueItem where
  type : String
  payload : Frame
deriving Repr, DecidableEq

/-- A signaling envelope pushed through `sendSignal`. -/
inductive Signal
  | offer (dest : String)
  | answer (dest : String)
  | iceCandidate (dest : String) (candidate : String)
deriving Repr, DecidableEq

/-- A message handed to the `onMessage` callback. -/
inductive Delivered
  | fileMsg (kind senderId senderName avatarSeed fileName mimeType : String)
      (blob : BlobData)
  | textMsg (senderId senderName avatarSeed : String) (timestamp : Nat) (body : String)
deriving Repr, DecidableEq

/-- The refs owned by `useWebRTC`, plus observable traces: `delivered`
(`onMessage` calls), `peersJoined` / `peersLeft` (the roster callbacks),
`signalsSent` (`sendSignal` calls), `closedPCs` (ids of connections on which
`close()` was invoked), and `nextId` (creation counter for fresh records). -/
structure MeshState where
  peerConnections : List (String × PC)
  dataChannels : List (String × DC)
  inboundFiles : List (String × InboundEntry)
  pendingMessages : List (String × List QueueItem)
  delivered : List Delivered
  peersJoined : List String
  peersLeft : List String
  signalsSent : List Signal
  closedPCs : List Nat
  nextId : Nat
deriving Repr, DecidableEq

/-- The initial state of the hook: four empty maps, empty traces. -/
def meshInit : MeshState :=
  { peerConnections := []
    dataChannels := []
    inboundFiles := []
    pendingMessages := []
    delivered := []
    peersJoined := []
    peersLeft := []
    signalsSent := []
    closedPCs := []
    nextId := 0 }

/-- `cleanupPeer`: close the peer connection if present and delete the peer's
entries from all four maps. -/
def cleanupPeer (st : MeshState) (p : String) : MeshState :=
  { st with
    peerConnections := eraseA st.peerConnections p
    dataChannels := eraseA st.dataChannels p
    inboundFiles := eraseA st.inboundFiles p
    pendingMessages := eraseA st.pendingMessages p
    closedPCs :=
      match lookupA st.peerConnections p with
      | some pc => pc.id :: st.closedPCs
      | none => st.closedPCs }

/-- `createPeerConnection`: if a record already exists for the peer it is torn
down first, then a fresh `RTCPeerConnection` (signaling state `stable`,
connection state `"new"`) is stored.  The role marks which path created it. -/
def createPeerConnection (st : MeshState) (p : String) (r : Role) : MeshState :=
  let st₁ := if (lookupA st.peerConnections p).isSome then cleanupPeer st p else st
  { st₁ with
    peerConnections :=
      setA st₁.peerConnections p
        { id := st₁.nextId, role := r, sig := SigState.stable
          connState := "new", candidates := [] }
    nextId := st₁.nextId + 1 }

/-- `initiateCall`: create the record (initiator), create the `'chat'` data
channel (readyState `"connecting"`), `createOffer` + `setLocalDescription`
(signaling `stable → have-local-offer`), send the offer, report the peer. -/
def initiateCall (st : MeshState) (p : String) : MeshState :=
  let st₁ := createPeerConnection st p Role.initiator
  let st₂ := { st₁ with dataChannels := setA st₁.dataChannels p { ready := "connecting", sent := [] } }
  let st₃ := { st₂ with peerConnections := updateA st₂.peerConnections p (fun pc => { pc with sig := SigState.haveLocalOffer }) }
  { st₃ with
    signalsSent := st₃.signalsSent ++ [Signal.offer p]
    peersJoined := st₃.peersJoined ++ [p] }

/-- `handleOffer`: create/replace the record (responder),
`setRemoteDescription(offer)` then `createAnswer` + `setLocalDescription`
(signaling `stable → have-remote-offer → stable`), send the answer. -/
def handleOffer (st : MeshState) (p : String) : MeshState :=
  let st₁ := createPeerConnection st p Role.responder
  let st₂ := { st₁ with peerConnections := updateA st₁.peerConnections p (fun pc => { pc with sig := SigState.stable }) }
  { st₂ with
    signalsSent := st₂.signalsSent ++ [Signal.answer p]
    peersJoined := st₂.peersJoined ++ [p] }

/-- `handleAnswer`: only guarded by record existence in the source; the
platform's `setRemoteDescription(answer)` succeeds exactly when the signaling
state is `have-local-offer` (otherwise it throws, leaving the connection
unchanged). -/
def handleAnswer (st : MeshState) (p : String) : MeshState :=
  match lookupA st.peerConnections p with
  | none => st
  | some pc =>
    if pc.sig = SigState.haveLocalOffer then
      { st with peerConnections := updateA st.peerConnections p (fun r => { r with sig := SigState.stable }) }
    else st

/-- `handleIceCandidate`: append the candidate if a record exists (errors from
`addIceCandidate` are swallowed). -/
def handleIceCandidate (st : MeshState) (p : String) (c : String) : MeshState :=
  match lookupA st.peerConnections p with
  | none => st
  | some _ =>
    { st with peerConnections := updateA st.peerConnections p (fun r => { r with candidates := r.candidates ++ [c] }) }

/-- `pc.ondatachannel` on the responder side: attach the announced channel. -/
def onDataChannel (st : MeshState) (p : String) (ready : String) : MeshState :=
  { st with dataChannels := setA st.dataChannels p { ready := ready, sent := [] } }

/-- The frames the `onopen` drain actually sends from a queue: payloads of the
entries whose `type` is `'text'`, in queue order. -/
def drainFrames (q : List QueueItem) : List Frame :=
  (q.filter (fun it => it.type == "text")).map (fun it => it.payload)

/-- `channel.onopen`: readyState becomes `"open"`, the pending queue for the
peer is deleted and its text entries are sent in FIFO order. -/
def dcOpen (st : MeshState) (p : String) : MeshState :=
  match lookupA st.dataChannels p with
  | none => st
  | some ch =>
    let q := (lookupA st.pendingMessages p).getD []
    { st with
      dataChannels :=
        setA st.dataChannels p { ready := "open", sent := ch.sent ++ drainFrames q }
      pendingMessages := eraseA st.pendingMessages p }

/-- `handleDataChannelMessage`: the decode site of the framing protocol. -/
def handleDataChannelMessage (st : MeshState) (p : String) : Frame → MeshState
  | Frame.fileMeta meta =>
    { st with inboundFiles := setA st.inboundFiles p { meta := meta, chunks := [] } }
  | Frame.fileEnd =>
    match lookupA st.inboundFiles p with
    | some entry =>
      let blob := reassembleFile entry.chunks entry.meta
      { st with
        inboundFiles := eraseA st.inboundFiles p
        delivered := st.delivered ++
          [Delivered.fileMsg
            (if isMedia entry.meta.mimeType then "media" else "file")
            (jsOr entry.meta.senderId p)
            (jsOr entry.meta.senderName "Peer")
            (jsOr entry.meta.avatarSeed p)
            entry.meta.name entry.meta.mimeType blob] }
    | none => st
  | Frame.text sid sn av ts body =>
    { st with delivered := st.delivered ++ [Delivered.textMsg sid sn av ts body] }
  | Frame.chunk b =>
    match lookupA st.inboundFiles p with
    | some entry =>
      { st with inboundFiles := setA st.inboundFiles p { entry with chunks := entry.chunks ++ [b] } }
    | none => st
  | Frame.notJson _ => st

/-- Deliver a list of frames from peer `p` to the receiving side in order. -/
def runFrames (st : MeshState) (p : String) (frames : List Frame) : MeshState :=
  frames.foldl (fun acc f => handleDataChannelMessage acc p f) st

/-- `pc.onconnectionstatechange`: record the new connection state; on
`disconnected` / `failed` / `closed` clean the peer up and report it left. -/
def connStateChange (st : MeshState) (p : String) (s : String) : MeshState :=
  match lookupA st.peerConnections p with
  | none => st
  | some _ =>
    let st₁ := { st with peerConnections := updateA st.peerConnections p (fun r => { r with connState := s }) }
    if s = "disconnected" ∨ s = "failed" ∨ s = "closed" then
      let st₂ := cleanupPeer st₁ p
      { st₂ with peersLeft := st₂.peersLeft ++ [p] }
    else st₁

/-- Enqueue one item on a peer's pending queue (create the queue if absent). -/
def pushQueue (pend : List (String × List QueueItem)) (p : String) (item : QueueItem) :
    List (String × List QueueItem) :=
  match lookupA pend p with
  | some q => setA pend p (q ++ [item])
  | none => setA pend p [item]

/-- The pending-queue effect of `broadcastText`: every channel whose
`readyState` is `'connecting'` gets the framed message appended to its queue. -/
def queueConnecting (dcs : List (String × DC)) (item : QueueItem)
    (pend : List (String × List QueueItem)) : List (String × List QueueItem) :=
  dcs.foldl (fun acc kv => if kv.2.ready = "connecting" then pushQueue acc kv.1 item else acc) pend

/-- `broadcastText`: send the framed text on every open channel; queue it for
every connecting channel; other states are skipped. -/
def broadcastText (st : MeshState) (sid sn av : String) (ts : Nat) (body : String) : MeshState :=
  let msg := Frame.text sid sn av ts body
  { st with
    dataChannels :=
      mapValA (fun ch => if ch.ready = "open" then { ch with sent := ch.sent ++ [msg] } else ch)
        st.dataChannels
    pendingMessages :=
      queueConnecting st.dataChannels { type := "text", payload := msg } st.pendingMessages }

/-- `broadcastFile`: `sendFile` on every channel whose `readyState` is
`'open'`; nothing is queued for any other channel. -/
def broadcastFile (st : MeshState) (file : FileData) (sm : SenderMeta) (tid : String) : MeshState :=
  { st with
    dataChannels :=
      mapValA
        (fun ch => if ch.ready = "open" then { ch with sent := ch.sent ++ sendFileFrames file sm tid } else ch)
        st.dataChannels }

/-- `disconnectAll`: `cleanupPeer` over a snapshot of the current peer ids. -/
def disconnectAll (st : MeshState) : MeshState :=
  (keysOf st.peerConnections).foldl cleanupPeer st

/-- One asynchronous event of the mesh manager, for quantifying over whole
operation sequences. -/
inductive Op
  | initiateCall (p : String)
  | handleOffer (p : String)
  | handleAnswer (p : String)
  | handleIceCandidate (p : String) (c : String)
  | onDataChannel (p : String) (ready : String)
  | dcOpen (p : String)
  | dcMessage (p : String) (f : Frame)
  | connStateChange (p : String) (s : String)
  | broadcastText (sid sn av : String) (ts : Nat) (body : String)
  | broadcastFile (file : FileData) (sm : SenderMeta) (tid : String)
  | cleanup (p : String)
  | disconnectAll
deriving Repr, DecidableEq

/-- Interpret one event. -/
def step (st : MeshState) : Op → MeshState
  | Op.initiateCall p => initiateCall st p
  | Op.handleOffer p => handleOffer st p
  | Op.handleAnswer p => handleAnswer st p
  | Op.handleIceCandidate p c => handleIceCandidate st p c
  | Op.onDataChannel p r => onDataChannel st p r
  | Op.dcOpen p => dcOpen st p
  | Op.dcMessage p f => handleDataChannelMessage st p f
  | Op.connStateChange p s => connStateChange st p s
  | Op.broadcastText sid sn av ts body => broadcastText st sid sn av ts body
  | Op.broadcastFile f sm tid => broadcastFile st f sm tid
  | Op.cleanup p => cleanupPeer st p
  | Op.disconnectAll => disconnectAll st

/-- Run a whole event sequence from the initial state. -/
def runOps (ops : List Op) : MeshState := ops.foldl step meshInit

/-- The structural invariant of the hook's state: every JS `Map` has unique
keys (so at most one live record, channel, transfer slot and queue exist per
peer id), every stored record was created before the current creation
counter, and a record whose signaling state is `have-local-offer` was
necessarily created by `initiateCall` (role `initiator`) — `handleOffer`
records leave negotiation in `stable`. -/
def MeshInv (st : MeshState) : Prop :=
  keysNodup st.peerConnections ∧ keysNodup st.dataChannels ∧
  keysNodup st.inboundFiles ∧ keysNodup st.pendingMessages ∧
  (∀ pr ∈ st.peerConnections, pr.2.id < st.nextId) ∧
  (∀ pr ∈ st.peerConnections, pr.2.sig = SigState.haveLocalOffer → pr.2.role = Role.initiator)

/-! ### RoomConnection: relay dispatch and the join timeout -/

/-- One roster entry carried by the relay's `joined` / `peer-joined` events. -/
structure PeerInfo where
  peerId : String
  username : String
  avatarSeed : String
deriving Repr, DecidableEq

/-- The orchestrator state visible to the claims: the mesh state, the
`peerMetaRef` map (peer id to username and avatar seed), and the room's
connection status string. -/
structure OrchState where
  mesh : MeshState
  peerMeta : List (String × (String × String))
  status : String
deriving Repr, DecidableEq

/-- The loop body of the `'joined'` branch: record one roster entry's display
metadata and call `initiateCall` for it. -/
def orchJoinStep (acc : OrchState) (pr : PeerInfo) : OrchState :=
  { acc with
    peerMeta := setA acc.peerMeta pr.peerId (pr.username, pr.avatarSeed)
    mesh := initiateCall acc.mesh pr.peerId }

/-- The `'joined'` branch of `ws.onmessage`: mark the room connected, then for
every peer of the roster record its display metadata and call `initiateCall`. -/
def orchJoined (st : OrchState) (peers : List PeerInfo) : OrchState :=
  peers.foldl orchJoinStep { st with status := "connected" }

/-- The `'peer-joined'` branch: record the newcomer's display metadata only. -/
def orchPeerJoined (st : OrchState) (pr : PeerInfo) : OrchState :=
  { st with peerMeta := setA st.peerMeta pr.peerId (pr.username, pr.avatarSeed) }

/-- The WebSocket-level events a join session can observe before the 8-second
mark.  `wsMsg t` is a relay envelope of type `t` (only `"joined"` and
`"error"` change the connection status). -/
inductive JoinEv
  | wsOpen
  | wsMsg (t : String)
  | wsClose
  | wsError
deriving Repr, DecidableEq

/-- The observable state of one join attempt: whether the 8-second timer is
still pending (`clearTimeout` not yet called), whether the socket has opened
or closed, the surfaced connection status, and the `hadError` flag. -/
structure JoinState where
  timerActive : Bool
  sockOpen : Bool
  sockClosed : Bool
  status : String
  hadError : Bool
deriving Repr, DecidableEq

/-- State right after the join effect runs: status `"connecting"`, the
8-second timer armed. -/
def joinInit : JoinState :=
  { timerActive := true, sockOpen := false, sockClosed := false
    status := "connecting", hadError := false }

/-- One WebSocket event, as handled by `RoomConnection`: `onopen` clears the
timeout and sends the join envelope; a `"joined"` message marks the room
connected; an `"error"` message marks it failed and sets `hadError`;
`onclose` clears the timeout and downgrades to `"idle"` unless an error was
recorded; `onerror` clears the timeout and marks the room failed. -/
def joinStep (s : JoinState) : JoinEv → JoinState
  | JoinEv.wsOpen => { s with timerActive := false, sockOpen := true }
  | JoinEv.wsMsg t =>
    if t = "joined" then { s with status := "connected" }
    else if t = "error" then { s with hadError := true, status := "failed" }
    else s
  | JoinEv.wsClose =>
    { s with timerActive := false, sockClosed := true
             status := if s.hadError then s.status else "idle" }
  | JoinEv.wsError => { s with timerActive := false, status := "failed" }

/-- Process the events that happen before the 8-second mark. -/
def runJoin (evs : List JoinEv) : JoinState := evs.foldl joinStep joinInit

/-- The `setTimeout` callback at the 8-second mark: it runs only if it was not
cleared, and it checks `ws.readyState !== WebSocket.OPEN` — not whether the
`joined` acknowledgment ever arrived.  If the socket is not open it closes it
and surfaces a failed connection. -/
def timerFire (s : JoinState) : JoinState :=
  if s.timerActive then
    if s.sockOpen ∧ ¬ s.sockClosed then s
    else { s with sockClosed := true, status := "failed" }
  else s

/-- Whether the relay's `joined` acknowledgment was received in the trace. -/
def joinedAckReceived (evs : List JoinEv) : Prop := JoinEv.wsMsg "joined" ∈ evs

instance (evs : List JoinEv) : Decidable (joinedAckReceived evs) := by
  unfold joinedAckReceived
  infer_instance

/-! ### Admission control (room list component) -/

/-- Outcome of `handleJoinRoom` for the user: the join proceeded, a
confirmation modal was raised, or the join was refused outright. -/
inductive JoinOutcome
  | joined
  | needsConfirmation
  | refused
deriving Repr, DecidableEq

/-- The running total of connections across all joined rooms
(`totalPeers`): the sum of the per-room peer list lengths. -/
def totalPeers (peersByRoom : List (String × List String)) : Nat :=
  (peersByRoom.map (fun kv => kv.2.length)).sum

/-- `handleJoinRoom`: a room not in the joined list is checked against the
hard 450 limit, then the 250 confirmation threshold (stashing the pending
join); an already-joined room proceeds immediately with no check. -/
def handleJoinRoom (rooms : List String) (total : Nat) (room pw : String) :
    JoinOutcome × Option (String × String) :=
  if room ∈ rooms then (JoinOutcome.joined, none)
  else if total ≥ 450 then (JoinOutcome.refused, none)
  else if total ≥ 250 then (JoinOutcome.needsConfirmation, some (room, pw))
  else (JoinOutcome.joined, none)

/-- `confirmPendingJoin`: `performJoinRoom` runs on exactly the stashed pending
join, if one exists; with no pending join nothing is performed. -/
def confirmPendingJoin (pending : Option (String × String)) : Option (String × String) :=
  pending

/-! ### Association-list lemmas -/

theorem lookupA_setA_self {α : Type} (l : List (String × α)) (k : String) (v : α) :
    lookupA (setA l k v) k = some v := by
  induction l with
  | nil => simp [setA, lookupA]
  | cons kv rest ih =>
    obtain ⟨a, w⟩ := kv
    by_cases h : a = k
    · simp [setA, lookupA, h]
    · simp [setA, lookupA, h, ih]

theorem lookupA_setA_ne {α : Type} (l : List (String × α)) (k k' : String) (v : α)
    (h : k' ≠ k) : lookupA (setA l k v) k' = lookupA l k' := by
  have hk : ¬ k = k' := fun hh => h hh.symm
  induction l with
  | nil => simp [setA, lookupA, hk]
  | cons kv rest ih =>
    obtain ⟨a, w⟩ := kv
    by_cases ha : a = k
    · have ha' : ¬ a = k' := by rw [ha]; exact hk
      simp [setA, lookupA, ha, hk, ha']
    · by_cases hb : a = k'
      · simp [setA, lookupA, ha, hb, hk, h]
      · simp [setA, lookupA, ha, hb, ih]

theorem setA_eq_of_lookup {α : Type} (l : List (String × α)) (k : String) (v : α)
    (h : lookupA l k = some v) : setA l k v = l := by
  induction l with
  | nil => simp [lookupA] at h
  | cons kv rest ih =>
    obtain ⟨a, w⟩ := kv
    by_cases ha : a = k
    · simp only [lookupA, if_pos ha] at h
      obtain rfl : w = v := Option.some.inj h
      simp [setA, ha]
    · simp only [lookupA, if_neg ha] at h
      simp [setA, ha, ih h]

theorem setA_setA {α : Type} (l : List (String × α)) (k : String) (v w : α) :
    setA (setA l k v) k w = setA l k w := by
  induction l with
  | nil => simp [setA]
  | cons kv rest ih =>
    obtain ⟨a, u⟩ := kv
    by_cases ha : a = k
    · simp [setA, ha]
    · simp [setA, ha, ih]

theorem eraseA_of_lookup_none {α : Type} (l : List (String × α)) (k : String)
    (h : lookupA l k = none) : eraseA l k = l := by
  induction l with
  | nil => simp [eraseA]
  | cons kv rest ih =>
    obtain ⟨a, w⟩ := kv
    by_cases ha : a = k
    · simp [lookupA, ha] at h
    · simp only [lookupA, if_neg ha] at h
      simp [eraseA, ha, ih h]

theorem eraseA_setA {α : Type} (l : List (String × α)) (k : String) (v : α) :
    eraseA (setA l k v) k = eraseA l k := by
  induction l with
  | nil => simp [setA, eraseA]
  | cons kv rest ih =>
    obtain ⟨a, u⟩ := kv
    by_cases ha : a = k
    · simp [setA, eraseA, ha]
    · simp [setA, eraseA, ha, ih]

theorem lookupA_eraseA_ne {α : Type} (l : List (String × α)) (k k' : String)
    (h : k' ≠ k) : lookupA (eraseA l k) k' = lookupA l k' := by
  induction l with
  | nil => simp [eraseA]
  | cons kv rest ih =>
    obtain ⟨a, w⟩ := kv
    by_cases ha : a = k
    · have ha' : ¬ a = k' := by rw [ha]; exact fun hh => h hh.symm
      have hk : ¬ k = k' := fun hh => h hh.symm
      simp [eraseA, lookupA, ha, ha', hk]
    · simp [eraseA, lookupA, ha, ih]

theorem lookupA_eq_none_iff {α : Type} (l : List (String × α)) (k : String) :
    lookupA l k = none ↔ k ∉ keysOf l := by
  induction l with
  | nil => simp [lookupA, keysOf]
  | cons kv rest ih =>
    obtain ⟨a, w⟩ := kv
    by_cases ha : a = k
    · simp only [lookupA, if_pos ha, keysOf, List.map_cons, List.mem_cons]
      constructor
      · intro hcontra
        exact absurd hcontra (by simp)
      · intro hcontra
        exact absurd (Or.inl ha.symm) hcontra
    · have hka : ¬ k = a := fun hh => ha hh.symm
      simp only [lookupA, if_neg ha, keysOf, List.map_cons, List.mem_cons]
      rw [show (k ∈ List.map Prod.fst rest) = (k ∈ keysOf rest) from rfl] at *
      rw [ih]
      constructor
      · intro hmem hor
        rcases hor with hor | hor
        · exact hka hor
        · exact hmem hor
      · intro hall hmem
        exact hall (Or.inr hmem)

theorem keysNodup_cons_iff {α : Type} (a : String) (w : α) (rest : List (String × α)) :
    keysNodup ((a, w) :: rest) ↔ a ∉ keysOf rest ∧ keysNodup rest := by
  simp [keysNodup, keysOf, List.nodup_cons]

theorem lookupA_eraseA_self {α : Type} (l : List (String × α)) (k : String)
    (h : keysNodup l) : lookupA (eraseA l k) k = none := by
  induction l with
  | nil => simp [eraseA, lookupA]
  | cons kv rest ih =>
    obtain ⟨a, w⟩ := kv
    obtain ⟨hnotin, hrest⟩ := (keysNodup_cons_iff a w rest).mp h
    by_cases ha : a = k
    · subst ha
      simpa [eraseA] using (lookupA_eq_none_iff rest a).mpr hnotin
    · simp [eraseA, lookupA, ha, ih hrest]

theorem lookupA_updateA_self {α : Type} (l : List (String × α)) (k : String) (f : α → α) :
    lookupA (updateA l k f) k = (lookupA l k).map f := by
  induction l with
  | nil => simp [updateA, lookupA]
  | cons kv rest ih =>
    obtain ⟨a, w⟩ := kv
    by_cases ha : a = k
    · simp [updateA, lookupA, ha]
    · simp [updateA, lookupA, ha, ih]

theorem lookupA_updateA_ne {α : Type} (l : List (String × α)) (k k' : String) (f : α → α)
    (h : k' ≠ k) : lookupA (updateA l k f) k' = lookupA l k' := by
  induction l with
  | nil => simp [updateA]
  | cons kv rest ih =>
    obtain ⟨a, w⟩ := kv
    by_cases ha : a = k
    · have ha' : ¬ a = k' := by rw [ha]; exact fun hh => h hh.symm
      have hk : ¬ k = k' := fun hh => h hh.symm
      simp [updateA, lookupA, ha, ha', hk]
    · simp [updateA, lookupA, ha, ih]

theorem lookupA_mapValA {α : Type} (g : α → α) (l : List (String × α)) (k : String) :
    lookupA (mapValA g l) k = (lookupA l k).map g := by
  induction l with
  | nil => simp [mapValA, lookupA]
  | cons kv rest ih =>
    obtain ⟨a, w⟩ := kv
    by_cases ha : a = k
    · simp [mapValA, lookupA, ha]
    · simpa [mapValA, lookupA, ha] using ih

theorem keysOf_updateA {α : Type} (l : List (String × α)) (k : String) (f : α → α) :
    keysOf (updateA l k f) = keysOf l := by
  induction l with
  | nil => simp [updateA]
  | cons kv rest ih =>
    obtain ⟨a, w⟩ := kv
    by_cases ha : a = k
    · simp [updateA, keysOf, ha]
    · simpa [updateA, keysOf, ha] using ih

theorem keysOf_mapValA {α : Type} (g : α → α) (l : List (String × α)) :
    keysOf (mapValA g l) = keysOf l := by
  induction l with
  | nil => simp [mapValA, keysOf]
  | cons kv rest ih => simpa [mapValA, keysOf] using ih

theorem mem_keysOf_setA {α : Type} (l : List (String × α)) (k : String) (v : α)
    (k' : String) (h : k' ∈ keysOf (setA l k v)) : k' ∈ keysOf l ∨ k' = k := by
  induction l with
  | nil =>
    simp only [setA, keysOf, List.map_cons, List.map_nil, List.mem_singleton] at h
    exact Or.inr h
  | cons kv rest ih =>
    obtain ⟨a, w⟩ := kv
    by_cases ha : a = k
    · simp only [setA, if_pos ha, keysOf, List.map_cons, List.mem_cons] at h
      rcases h with h | h
      · exact Or.inr h
      · exact Or.inl (by simp only [keysOf, List.map_cons, List.mem_cons]; exact Or.inr h)
    · simp only [setA, if_neg ha, keysOf, List.map_cons, List.mem_cons] at h
      rcases h with h | h
      · exact Or.inl (by simp only [keysOf, List.map_cons, List.mem_cons]; exact Or.inl h)
      · rcases ih h with h' | h'
        · exact Or.inl (by simp only [keysOf, List.map_cons, List.mem_cons]; exact Or.inr h')
        · exact Or.inr h'

theorem keysNodup_setA {α : Type} (l : List (String × α)) (k : String) (v : α)
    (h : keysNodup l) : keysNodup (setA l k v) := by
  induction l with
  | nil => simp [setA, keysNodup, keysOf]
  | cons kv rest ih =>
    obtain ⟨a, w⟩ := kv
    obtain ⟨hnotin, hrest⟩ := (keysNodup_cons_iff a w rest).mp h
    by_cases ha : a = k
    · subst ha
      simp only [setA, if_pos rfl]
      exact (keysNodup_cons_iff a v rest).mpr ⟨hnotin, hrest⟩
    · simp only [setA, if_neg ha]
      refine (keysNodup_cons_iff a w (setA rest k v)).mpr ⟨?_, ih hrest⟩
      intro hmem
      rcases mem_keysOf_setA rest k v a hmem with h' | h'
      · exact hnotin h'
      · exact ha h'

theorem keysOf_eraseA_sublist {α : Type} (l : List (String × α)) (k : String) :
    List.Sublist (keysOf (eraseA l k)) (keysOf l) := by
  induction l with
  | nil => simp [eraseA]
  | cons kv rest ih =>
    obtain ⟨a, w⟩ := kv
    by_cases ha : a = k
    · simp only [eraseA, if_pos ha, keysOf, List.map_cons]
      exact List.sublist_cons_self a (keysOf rest)
    · simp only [eraseA, if_neg ha, keysOf, List.map_cons]
      exact List.Sublist.cons₂ a ih

theorem keysNodup_eraseA {α : Type} (l : List (String × α)) (k : String)
    (h : keysNodup l) : keysNodup (eraseA l k) :=
  List.Nodup.sublist (keysOf_eraseA_sublist l k) h

theorem keysNodup_updateA {α : Type} (l : List (String × α)) (k : String) (f : α → α)
    (h : keysNodup l) : keysNodup (updateA l k f) := by
  unfold keysNodup
  rw [keysOf_updateA]
  exact h

theorem keysNodup_mapValA {α : Type} (g : α → α) (l : List (String × α))
    (h : keysNodup l) : keysNodup (mapValA g l) := by
  unfold keysNodup
  rw [keysOf_mapValA]
  exact h

/-! ### Queue lemmas -/

theorem lookupA_pushQueue_self (pend : List (String × List QueueItem)) (p : String)
    (item : QueueItem) :
    lookupA (pushQueue pend p item) p = some ((lookupA pend p).getD [] ++ [item]) := by
  unfold pushQueue
  cases h : lookupA pend p with
  | none => simp [h, lookupA_setA_self]
  | some q => simp [h, lookupA_setA_self]

theorem lookupA_pushQueue_ne (pend : List (String × List QueueItem)) (p p' : String)
    (item : QueueItem) (h : p' ≠ p) :
    lookupA (pushQueue pend p item) p' = lookupA pend p' := by
  unfold pushQueue
  cases hq : lookupA pend p with
  | none => simp [lookupA_setA_ne _ _ _ _ h]
  | some q => simp [lookupA_setA_ne _ _ _ _ h]

theorem keysNodup_pushQueue (pend : List (String × List QueueItem)) (p : String)
    (item : QueueItem) (h : keysNodup pend) : keysNodup (pushQueue pend p item) := by
  unfold pushQueue
  cases lookupA pend p with
  | none => exact keysNodup_setA _ _ _ h
  | some q => exact keysNodup_setA _ _ _ h

theorem queueConnecting_nil (item : QueueItem) (pend : List (String × List QueueItem)) :
    queueConnecting [] item pend = pend := rfl

theorem queueConnecting_cons (kv : String × DC) (rest : List (String × DC))
    (item : QueueItem) (pend : List (String × List QueueItem)) :
    queueConnecting (kv :: rest) item pend =
      queueConnecting rest item
        (if kv.2.ready = "connecting" then pushQueue pend kv.1 item else pend) := rfl

theorem lookupA_queueConnecting_not_mem (dcs : List (String × DC)) (item : QueueItem)
    (pend : List (String × List QueueItem)) (p : String) (h : p ∉ keysOf dcs) :
    lookupA (queueConnecting dcs item pend) p = lookupA pend p := by
  induction dcs generalizing pend with
  | nil => simp [queueConnecting_nil]
  | cons kv rest ih =>
    have hp : p ≠ kv.1 := by
      intro hh
      exact h (by simp only [keysOf, List.map_cons, List.mem_cons]; exact Or.inl hh)
    have hrest : p ∉ keysOf rest := by
      intro hh
      exact h (by simp only [keysOf, List.map_cons, List.mem_cons]; exact Or.inr hh)
    rw [queueConnecting_cons]
    rw [ih _ hrest]
    by_cases hc : kv.2.ready = "connecting"
    · simp [hc, lookupA_pushQueue_ne _ _ _ _ hp]
    · simp [hc]

theorem keysNodup_queueConnecting (dcs : List (String × DC)) (item : QueueItem)
    (pend : List (String × List QueueItem)) (h : keysNodup pend) :
    keysNodup (queueConnecting dcs item pend) := by
  induction dcs generalizing pend with
  | nil => simpa [queueConnecting_nil] using h
  | cons kv rest ih =>
    rw [queueConnecting_cons]
    by_cases hc : kv.2.ready = "connecting"
    · simp only [hc, if_pos rfl]
      exact ih _ (keysNodup_pushQueue _ _ _ h)
    · simp only [if_neg hc]
      exact ih _ h

theorem lookupA_queueConnecting_self (dcs : List (String × DC)) (item : QueueItem)
    (pend : List (String × List QueueItem)) (p : String) (ch : DC)
    (hnd : keysNodup dcs) (hmem : lookupA dcs p = some ch) (hconn : ch.ready = "connecting") :
    lookupA (queueConnecting dcs item pend) p =
      some ((lookupA pend p).getD [] ++ [item]) := by
  induction dcs generalizing pend with
  | nil => simp [lookupA] at hmem
  | cons kv rest ih =>
    obtain ⟨a, w⟩ := kv
    obtain ⟨hnotin, hrest⟩ := (keysNodup_cons_iff a w rest).mp hnd
    by_cases ha : a = p
    · subst ha
      simp only [lookupA, if_pos rfl] at hmem
      obtain rfl : w = ch := Option.some.inj hmem
      rw [queueConnecting_cons]
      simp only [hconn, if_pos rfl]
      rw [lookupA_queueConnecting_not_mem rest item _ a hnotin]
      exact lookupA_pushQueue_self pend a item
    · simp only [lookupA, if_neg ha] at hmem
      rw [queueConnecting_cons]
      have step : lookupA (if (a, w).2.ready = "connecting" then pushQueue pend (a, w).1 item else pend) p = lookupA pend p := by
        by_cases hc : (a, w).2.ready = "connecting"
        · simp only [if_pos hc]
          exact lookupA_pushQueue_ne pend a p item (fun hh => ha hh.symm)
        · simp only [if_neg hc]
      rw [ih _ hrest hmem]
      rw [step]

/-! ### Chunking lemmas -/

theorem chunksRec_nil : chunksRec [] = [] := by
  rw [chunksRec]
  simp

theorem chunksRec_cons (buf : Bytes) (h : buf ≠ []) :
    chunksRec buf = buf.take CHUNK_SIZE :: chunksRec (buf.drop CHUNK_SIZE) := by
  rw [chunksRec]
  simp [h]

theorem flatten_chunksRec (buf : Bytes) : (chunksRec buf).flatten = buf := by
  induction buf using chunksRec.induct with
  | case1 => simp [chunksRec_nil]
  | case2 buf h ih =>
    rw [chunksRec_cons buf h]
    simp only [List.flatten_cons, ih]
    exact List.take_append_drop CHUNK_SIZE buf

theorem totalChunksFor_zero : totalChunksFor 0 = 0 := by decide

theorem totalChunksFor_succ (len : Nat) (h : 0 < len) :
    totalChunksFor len = totalChunksFor (len - CHUNK_SIZE) + 1 := by
  unfold totalChunksFor CHUNK_SIZE
  omega

theorem jsSlice_zero (buf : Bytes) :
    jsSlice buf 0 (min CHUNK_SIZE buf.length) = buf.take CHUNK_SIZE := by
  unfold jsSlice
  simp only [List.drop_zero, Nat.sub_zero]
  apply List.take_eq_take.mpr
  omega

theorem jsSlice_shift (buf : Bytes) (i : Nat) :
    jsSlice buf ((i + 1) * CHUNK_SIZE) (min ((i + 1) * CHUNK_SIZE + CHUNK_SIZE) buf.length) =
      jsSlice (buf.drop CHUNK_SIZE) (i * CHUNK_SIZE)
        (min (i * CHUNK_SIZE + CHUNK_SIZE) (buf.drop CHUNK_SIZE).length) := by
  unfold jsSlice
  rw [List.drop_drop]
  have harg : CHUNK_SIZE + i * CHUNK_SIZE = (i + 1) * CHUNK_SIZE := by ring
  rw [harg, List.length_drop]
  have htake : min ((i + 1) * CHUNK_SIZE + CHUNK_SIZE) buf.length - (i + 1) * CHUNK_SIZE
      = min (i * CHUNK_SIZE + CHUNK_SIZE) (buf.length - CHUNK_SIZE) - i * CHUNK_SIZE := by
    have hcs : CHUNK_SIZE = 16384 := by decide
    rw [hcs]
    omega
  rw [htake]

theorem fileChunks_eq_chunksRec (buf : Bytes) : fileChunks buf = chunksRec buf := by
  induction buf using chunksRec.induct with
  | case1 => simp [fileChunks, chunksRec_nil, totalChunksFor_zero]
  | case2 buf h ih =>
    have hpos : 0 < buf.length := List.length_pos.mpr h
    rw [chunksRec_cons buf h, ← ih]
    unfold fileChunks
    rw [show totalChunksFor buf.length = totalChunksFor ((buf.drop CHUNK_SIZE).length) + 1 by
      rw [List.length_drop]
      exact totalChunksFor_succ buf.length hpos]
    rw [List.range_succ_eq_map]
    rw [List.map_cons, List.map_map]
    have htail :
        List.map ((fun i => jsSlice buf (i * CHUNK_SIZE) (min (i * CHUNK_SIZE + CHUNK_SIZE) buf.length)) ∘ Nat.succ)
            (List.range (totalChunksFor (buf.drop CHUNK_SIZE).length))
          = List.map (fun i => jsSlice (buf.drop CHUNK_SIZE) (i * CHUNK_SIZE)
              (min (i * CHUNK_SIZE + CHUNK_SIZE) (buf.drop CHUNK_SIZE).length))
            (List.range (totalChunksFor (buf.drop CHUNK_SIZE).length)) := by
      apply List.map_congr_left
      intro i _
      simpa [Nat.succ_eq_add_one] using jsSlice_shift buf i
    rw [htail]
    simp [jsSlice_zero]

theorem fileChunks_flatten (buf : Bytes) : (fileChunks buf).flatten = buf := by
  rw [fileChunks_eq_chunksRec, flatten_chunksRec]

theorem fileChunks_length (buf : Bytes) :
    (fileChunks buf).length = totalChunksFor buf.length := by
  simp [fileChunks]

theorem fileChunks_chunk_le (buf : Bytes) :
    ∀ c ∈ fileChunks buf, c.length ≤ CHUNK_SIZE := by
  intro c hc
  simp only [fileChunks, List.mem_map, List.mem_range] at hc
  obtain ⟨i, hi, rfl⟩ := hc
  simp only [jsSlice, List.length_take, List.length_drop]
  have hcs : CHUNK_SIZE = 16384 := by decide
  rw [hcs]
  omega

theorem fileChunks_chunk_full (buf : Bytes) (i : Nat) (c : Bytes)
    (h : i + 1 < (fileChunks buf).length) (hc : (fileChunks buf)[i]? = some c) :
    c.length = CHUNK_SIZE := by
  rw [fileChunks_length] at h
  have hi : i < totalChunksFor buf.length := by omega
  simp only [fileChunks, List.getElem?_map] at hc
  rw [List.getElem?_range hi] at hc
  simp only [Option.map_some'] at hc
  obtain rfl := (Option.some.inj hc).symm
  simp only [jsSlice, List.length_take, List.length_drop]
  simp only [totalChunksFor] at h
  have hcs : CHUNK_SIZE = 16384 := by decide
  rw [hcs]
  rw [hcs] at h
  omega

/-! ### Receiver-side evaluation lemmas -/

theorem runFrames_nil (st : MeshState) (p : String) : runFrames st p [] = st := rfl

theorem runFrames_cons (st : MeshState) (p : String) (f : Frame) (fs : List Frame) :
    runFrames st p (f :: fs) = runFrames (handleDataChannelMessage st p f) p fs := rfl

theorem runFrames_append (st : MeshState) (p : String) (a b : List Frame) :
    runFrames st p (a ++ b) = runFrames (runFrames st p a) p b := by
  simp [runFrames, List.foldl_append]

theorem handleDCM_chunk (st : MeshState) (p : String) (b : Bytes) (entry : InboundEntry)
    (h : lookupA st.inboundFiles p = some entry) :
    handleDataChannelMessage st p (Frame.chunk b)
      = { st with inboundFiles := setA st.inboundFiles p { entry with chunks := entry.chunks ++ [b] } } := by
  simp [handleDataChannelMessage, h]

theorem runFrames_chunks (cs : List Bytes) (st : MeshState) (p : String) (entry : InboundEntry)
    (h : lookupA st.inboundFiles p = some entry) :
    runFrames st p (cs.map Frame.chunk)
      = { st with inboundFiles := setA st.inboundFiles p { entry with chunks := entry.chunks ++ cs } } := by
  induction cs generalizing st entry with
  | nil =>
    have hentry : ({ entry with chunks := entry.chunks ++ [] } : InboundEntry) = entry := by
      cases entry
      simp
    simp only [List.map_nil, runFrames_nil, hentry, setA_eq_of_lookup _ _ _ h]
  | cons b bs ih =>
    simp only [List.map_cons, runFrames_cons]
    rw [handleDCM_chunk st p b entry h]
    rw [ih _ _ (lookupA_setA_self st.inboundFiles p _)]
    simp [setA_setA, List.append_assoc]

/-! ### jsOr helpers -/

theorem jsOr_empty_right (s : String) : jsOr s "" = s := by
  unfold jsOr
  by_cases h : s = ""
  · simp [h]
  · simp [h]

theorem jsOr_of_ne (s d : String) (h : s ≠ "") : jsOr s d = s := by
  unfold jsOr
  simp [h]

theorem jsOr_peer_idem (s : String) : jsOr (jsOr s "Peer") "Peer" = jsOr s "Peer" := by
  unfold jsOr
  by_cases h : s = ""
  · simp [h]
  · simp [h]

/-- Full evaluation of the receiver on the frame sequence of one `sendFile`:
the transfer slot is opened by `file-meta`, filled by the chunks, and closed
by `file-end`, which emits the reassembled message. -/
theorem runFrames_sendFile (st : MeshState) (p : String) (f : FileData)
    (sm : SenderMeta) (tid : String) :
    runFrames st p (sendFileFrames f sm tid)
      = { st with
          inboundFiles := eraseA st.inboundFiles p
          delivered := st.delivered ++
            [Delivered.fileMsg
              (if isMedia f.mimeType then "media" else "file")
              (jsOr (mkFileMeta f sm tid).senderId p)
              (jsOr (mkFileMeta f sm tid).senderName "Peer")
              (jsOr (mkFileMeta f sm tid).avatarSeed p)
              f.name f.mimeType
              (reassembleFile (fileChunks f.bytes) (mkFileMeta f sm tid))] } := by
  unfold sendFileFrames
  rw [runFrames_cons]
  have hmetaStep : handleDataChannelMessage st p (Frame.fileMeta (mkFileMeta f sm tid))
      = { st with inboundFiles := setA st.inboundFiles p { meta := mkFileMeta f sm tid, chunks := [] } } := rfl
  rw [hmetaStep, runFrames_append]
  rw [runFrames_chunks (fileChunks f.bytes) _ p { meta := mkFileMeta f sm tid, chunks := [] }
    (lookupA_setA_self _ _ _)]
  simp only [setA_setA, List.nil_append]
  rw [runFrames_cons, runFrames_nil]
  simp [handleDataChannelMessage, lookupA_setA_self, eraseA_setA, mkFileMeta]

/-- C1.  The chunking round-trip as the code actually behaves.  A file of
size `S` yields exactly `ceil(S / 16384)` binary chunks, each at most 16384
bytes with only the last shorter, framed by exactly one `file-meta` and one
`file-end`; the receiver reconstructs a byte-identical artifact and keeps the
file name, the MIME type and the sender identity of `file-meta` — the
identity and blob-type clauses need the fields to be nonempty, which is what
the correction records (see the counterexample). -/
theorem sendFile_roundtrip (f : FileData) (sm : SenderMeta) (tid p : String) (st : MeshState)
    (hmime : f.mimeType ≠ "") (hsid : sm.senderId ≠ "") (hav : sm.avatarSeed ≠ "") :
    sendFileFrames f sm tid
        = Frame.fileMeta (mkFileMeta f sm tid) ::
            ((fileChunks f.bytes).map Frame.chunk ++ [Frame.fileEnd]) ∧
    (fileChunks f.bytes).length = (f.bytes.length + CHUNK_SIZE - 1) / CHUNK_SIZE ∧
    (∀ c ∈ fileChunks f.bytes, c.length ≤ CHUNK_SIZE) ∧
    (∀ i c, i + 1 < (fileChunks f.bytes).length → (fileChunks f.bytes)[i]? = some c →
        c.length = CHUNK_SIZE) ∧
    (runFrames st p (sendFileFrames f sm tid)).delivered
        = st.delivered ++
            [Delivered.fileMsg (if isMedia f.mimeType then "media" else "file")
              sm.senderId (jsOr sm.senderName "Peer") sm.avatarSeed f.name f.mimeType
              { bytes := f.bytes, blobType := f.mimeType }] ∧
    (runFrames st p (sendFileFrames f sm tid)).inboundFiles = eraseA st.inboundFiles p ∧
    (runFrames st p (sendFileFrames f sm tid)).peerConnections = st.peerConnections ∧
    (runFrames st p (sendFileFrames f sm tid)).dataChannels = st.dataChannels ∧
    (runFrames st p (sendFileFrames f sm tid)).pendingMessages = st.pendingMessages := by
  have hsid' : jsOr (mkFileMeta f sm tid).senderId p = sm.senderId := by
    show jsOr (jsOr sm.senderId "") p = sm.senderId
    rw [jsOr_empty_right, jsOr_of_ne _ _ hsid]
  have hav' : jsOr (mkFileMeta f sm tid).avatarSeed p = sm.avatarSeed := by
    show jsOr (jsOr sm.avatarSeed "") p = sm.avatarSeed
    rw [jsOr_empty_right, jsOr_of_ne _ _ hav]
  have hname' : jsOr (mkFileMeta f sm tid).senderName "Peer" = jsOr sm.senderName "Peer" := by
    show jsOr (jsOr sm.senderName "Peer") "Peer" = jsOr sm.senderName "Peer"
    exact jsOr_peer_idem sm.senderName
  have hblob : reassembleFile (fileChunks f.bytes) (mkFileMeta f sm tid)
      = { bytes := f.bytes, blobType := f.mimeType } := by
    unfold reassembleFile
    rw [fileChunks_flatten]
    show ({ bytes := f.bytes, blobType := jsOr f.mimeType "application/octet-stream" } : BlobData) = _
    rw [jsOr_of_ne _ _ hmime]
  refine ⟨rfl, ?_, fileChunks_chunk_le f.bytes, ?_, ?_, ?_, ?_, ?_, ?_⟩
  · exact fileChunks_length f.bytes
  · intro i c h hc
    exact fileChunks_chunk_full f.bytes i c h hc
  · rw [runFrames_sendFile]
    simp [hsid', hav', hname', hblob]
  · rw [runFrames_sendFile]
  · rw [runFrames_sendFile]
  · rw [runFrames_sendFile]
  · rw [runFrames_sendFile]

/-- C1 counterexample.  With an empty MIME type and an empty sender id — both
reachable, since `sendFile`'s `senderMeta` defaults to `{}` and `file.type`
is empty for unknown extensions — the file-meta carries `senderId = ""`, yet
the delivered message shows the transport peer id `"peerX"`, and the rebuilt
blob's type is `application/octet-stream`, not the original empty string: the
sender identity carried in file-meta and the blob MIME type are not preserved
verbatim. -/
theorem sendFile_roundtrip_counterexample :
    (mkFileMeta { name := "notes.bin", mimeType := "", bytes := [1, 2, 3] } {} "t1").senderId = "" ∧
    (mkFileMeta { name := "notes.bin", mimeType := "", bytes := [1, 2, 3] } {} "t1").mimeType = "" ∧
    (runFrames meshInit "peerX"
        (sendFileFrames { name := "notes.bin", mimeType := "", bytes := [1, 2, 3] } {} "t1")).delivered
      = [Delivered.fileMsg "file" "peerX" "Peer" "peerX" "notes.bin" ""
          { bytes := [1, 2, 3], blobType := "application/octet-stream" }] ∧
    ("peerX" : String) ≠ "" := by
  refine ⟨rfl, rfl, ?_, by decide⟩
  rfl

/-- C1 witness: the round-trip theorem applied to a concrete 3-byte PNG with
nonempty sender identity. -/
theorem sendFile_roundtrip_witness :
    (runFrames meshInit "q"
        (sendFileFrames { name := "pic.png", mimeType := "image/png", bytes := [7, 8, 9] }
          { senderId := "alice", senderName := "Alice", avatarSeed := "seed" } "t")).delivered
      = [Delivered.fileMsg "media" "alice" "Alice" "seed" "pic.png" "image/png"
          { bytes := [7, 8, 9], blobType := "image/png" }] := by
  have h := sendFile_roundtrip
    { name := "pic.png", mimeType := "image/png", bytes := [7, 8, 9] }
    { senderId := "alice", senderName := "Alice", avatarSeed := "seed" }
    "t" "q" meshInit (by decide) (by decide) (by decide)
  simpa [meshInit, jsOr, isMedia,
    (by decide : strStartsWith "image/png" "image/" = true)] using h.2.2.2.2.1

/-! ### C7: dangling binary chunks are dropped without any state change -/

/-- C7.  A binary chunk arriving for a peer with no open inbound transfer
slot leaves the entire mesh state — the peer's own channel and record, every
other peer's state, and all traces — exactly unchanged. -/
theorem chunk_without_slot_dropped (st : MeshState) (p : String) (b : Bytes)
    (h : lookupA st.inboundFiles p = none) :
    handleDataChannelMessage st p (Frame.chunk b) = st := by
  simp [handleDataChannelMessage, h]

/-- C7 witness: a chunk for a peer with no slot in the initial state. -/
theorem chunk_without_slot_dropped_witness :
    handleDataChannelMessage meshInit "p1" (Frame.chunk [1, 2]) = meshInit :=
  chunk_without_slot_dropped meshInit "p1" [1, 2] rfl

/-! ### C4: admission control -/

/-- C4.  Joining a room not already in the joined list is refused outright at
a running total of 450 or more, requires one confirmation step (stashing the
pending join, which `confirmPendingJoin` then performs verbatim) at 250 or
more, and proceeds straight through below 250; an already-joined room skips
the check entirely at any total. -/
theorem admission_control (rooms : List String) (room pw : String) (total : Nat) :
    (room ∉ rooms → 450 ≤ total →
        handleJoinRoom rooms total room pw = (JoinOutcome.refused, none)) ∧
    (room ∉ rooms → 250 ≤ total → total < 450 →
        handleJoinRoom rooms total room pw = (JoinOutcome.needsConfirmation, some (room, pw)) ∧
        confirmPendingJoin (some (room, pw)) = some (room, pw)) ∧
    (room ∉ rooms → total < 250 →
        handleJoinRoom rooms total room pw = (JoinOutcome.joined, none)) ∧
    (room ∈ rooms → handleJoinRoom rooms total room pw = (JoinOutcome.joined, none)) := by
  refine ⟨?_, ?_, ?_, ?_⟩
  · intro hnew hge
    simp [handleJoinRoom, hnew, hge]
  · intro hnew hge hlt
    have hnot : ¬ total ≥ 450 := by omega
    exact ⟨by simp [handleJoinRoom, hnew, hnot, hge], rfl⟩
  · intro hnew hlt
    have hn1 : ¬ total ≥ 450 := by omega
    have hn2 : ¬ total ≥ 250 := by omega
    simp [handleJoinRoom, hnew, hn1, hn2]
  · intro hmem
    simp [handleJoinRoom, hmem]

/-- C4 witness: the spec's three boundary totals, plus a rejoin at the hard
limit. -/
theorem admission_control_witness :
    handleJoinRoom [] 249 "r" "pw" = (JoinOutcome.joined, none) ∧
    handleJoinRoom [] 250 "r" "pw" = (JoinOutcome.needsConfirmation, some ("r", "pw")) ∧
    handleJoinRoom [] 450 "r" "pw" = (JoinOutcome.refused, none) ∧
    handleJoinRoom ["r"] 450 "r" "pw" = (JoinOutcome.joined, none) := by
  refine ⟨?_, ?_, ?_, ?_⟩
  · exact (admission_control [] "r" "pw" 249).2.2.1 (by decide) (by decide)
  · exact ((admission_control [] "r" "pw" 250).2.1 (by decide) (by decide) (by decide)).1
  · exact (admission_control [] "r" "pw" 450).1 (by decide) (by decide)
  · exact (admission_control ["r"] "r" "pw" 450).2.2.2 (by decide)

/-! ### C6: the 8-second join timer -/

theorem joinStep_timer_mono (s : JoinState) (e : JoinEv) (h : s.timerActive = false) :
    (joinStep s e).timerActive = false := by
  cases e with
  | wsOpen => simp [joinStep]
  | wsMsg t =>
    unfold joinStep
    by_cases h1 : t = "joined"
    · simp [h1, h]
    · by_cases h2 : t = "error"
      · simp [h1, h2, h]
      · simp [h1, h2, h]
  | wsClose => simp [joinStep]
  | wsError => simp [joinStep]

theorem foldl_joinStep_timer_false (evs : List JoinEv) :
    ∀ s : JoinState, s.timerActive = false → (evs.foldl joinStep s).timerActive = false := by
  induction evs with
  | nil => intro s h; simpa using h
  | cons e rest ih => intro s h; exact ih _ (joinStep_timer_mono s e h)

theorem timer_cleared_of_open (evs : List JoinEv) :
    ∀ s : JoinState, JoinEv.wsOpen ∈ evs → (evs.foldl joinStep s).timerActive = false := by
  induction evs with
  | nil => intro s h; simp at h
  | cons e rest ih =>
    intro s h
    by_cases he : e = JoinEv.wsOpen
    · subst he
      exact foldl_joinStep_timer_false rest _ (by simp [joinStep])
    · have hr : JoinEv.wsOpen ∈ rest := by
        rcases List.mem_cons.mp h with h' | h'
        · exact absurd h'.symm he
        · exact h'
      exact ih _ hr

theorem timerFire_of_cleared (s : JoinState) (h : s.timerActive = false) :
    timerFire s = s := by
  simp [timerFire, h]

theorem join_pending_state (evs : List JoinEv) :
    ∀ s : JoinState, JoinEv.wsOpen ∉ evs → JoinEv.wsClose ∉ evs → JoinEv.wsError ∉ evs →
      s.timerActive = true → s.sockOpen = false →
      (evs.foldl joinStep s).timerActive = true ∧ (evs.foldl joinStep s).sockOpen = false := by
  induction evs with
  | nil => intro s _ _ _ ht ho; exact ⟨ht, ho⟩
  | cons e rest ih =>
    intro s hopen hclose herr ht ho
    cases e with
    | wsOpen => exact absurd (List.mem_cons_self _ _) hopen
    | wsClose => exact absurd (List.mem_cons_self _ _) hclose
    | wsError => exact absurd (List.mem_cons_self _ _) herr
    | wsMsg t =>
      have hstep : (joinStep s (JoinEv.wsMsg t)).timerActive = true ∧
          (joinStep s (JoinEv.wsMsg t)).sockOpen = false := by
        unfold joinStep
        by_cases h1 : t = "joined"
        · simp [h1, ht, ho]
        · by_cases h2 : t = "error"
          · simp [h1, h2, ht, ho]
          · simp [h1, h2, ht, ho]
      exact ih _ (fun hh => hopen (List.mem_cons_of_mem _ hh))
        (fun hh => hclose (List.mem_cons_of_mem _ hh))
        (fun hh => herr (List.mem_cons_of_mem _ hh))
        hstep.1 hstep.2

/-- C6 counterexample.  A session whose WebSocket opens but that never
receives the relay's `joined` acknowledgment is never marked failed: the
`clearTimeout` in `ws.onopen` cancels the 8-second timer, so at the deadline
the connection status is still `"connecting"`, while the claim requires
`"failed"`.  The timer only guards socket-open, not the `joined` ack. -/
theorem join_timeout_counterexample :
    ¬ joinedAckReceived [JoinEv.wsOpen] ∧
    (timerFire (runJoin [JoinEv.wsOpen])).status = "connecting" ∧
    "connecting" ≠ "failed" := by
  refine ⟨by decide, rfl, by decide⟩

/-- C6 (amended).  The 8-second timer marks the join failed (closing the
socket) exactly when the WebSocket has not reached the OPEN state by the
deadline; it is cancelled as soon as the socket opens, so a session that
opened but never received the `joined` acknowledgment is not failed by it. -/
theorem join_timeout_amended (evs evsOpen : List JoinEv)
    (h1 : JoinEv.wsOpen ∉ evs) (h2 : JoinEv.wsClose ∉ evs) (h3 : JoinEv.wsError ∉ evs)
    (h4 : JoinEv.wsOpen ∈ evsOpen) :
    (timerFire (runJoin evs)).status = "failed" ∧
    (timerFire (runJoin evs)).sockClosed = true ∧
    timerFire (runJoin evsOpen) = runJoin evsOpen := by
  obtain ⟨ht, ho⟩ := join_pending_state evs joinInit h1 h2 h3 rfl rfl
  refine ⟨?_, ?_, ?_⟩
  · unfold timerFire runJoin at *
    simp [ht, ho]
  · unfold timerFire runJoin at *
    simp [ht, ho]
  · exact timerFire_of_cleared _ (timer_cleared_of_open evsOpen joinInit h4)

/-- C6 witness: an empty pre-deadline trace fails at the deadline; a trace
that opened the socket leaves the fire a no-op. -/
theorem join_timeout_amended_witness :
    (timerFire (runJoin [])).status = "failed" ∧
    (timerFire (runJoin [])).sockClosed = true ∧
    timerFire (runJoin [JoinEv.wsOpen]) = runJoin [JoinEv.wsOpen] :=
  join_timeout_amended [] [JoinEv.wsOpen] (by decide) (by decide) (by decide) (by decide)

/-! ### C8: roster dispatch of the orchestrator -/

theorem initiateCall_signalsSent (st : MeshState) (p : String) :
    (initiateCall st p).signalsSent = st.signalsSent ++ [Signal.offer p] := by
  unfold initiateCall createPeerConnection cleanupPeer
  by_cases h : (lookupA st.peerConnections p).isSome <;> simp [h]

theorem foldl_orchJoinStep_signals (peers : List PeerInfo) :
    ∀ st : OrchState,
      (peers.foldl orchJoinStep st).mesh.signalsSent
        = st.mesh.signalsSent ++ peers.map (fun pr => Signal.offer pr.peerId) := by
  induction peers with
  | nil => intro st; simp
  | cons pr rest ih =>
    intro st
    simp only [List.foldl_cons, List.map_cons]
    rw [ih]
    rw [show (orchJoinStep st pr).mesh = initiateCall st.mesh pr.peerId from rfl]
    rw [initiateCall_signalsSent]
    simp [List.append_assoc]

theorem foldl_orchJoinStep_status (peers : List PeerInfo) :
    ∀ st : OrchState, (peers.foldl orchJoinStep st).status = st.status := by
  induction peers with
  | nil => intro st; rfl
  | cons pr rest ih => intro st; exact ih (orchJoinStep st pr)

theorem foldl_orchJoinStep_meta_preserved (peers : List PeerInfo) :
    ∀ (st : OrchState) (p : String), p ∉ peers.map PeerInfo.peerId →
      lookupA (peers.foldl orchJoinStep st).peerMeta p = lookupA st.peerMeta p := by
  induction peers with
  | nil => intro st p _; rfl
  | cons pr rest ih =>
    intro st p hp
    have hne : p ≠ pr.peerId := fun hh => hp (by simp [hh])
    have hrest : p ∉ rest.map PeerInfo.peerId := fun hh => hp (by simp [hh])
    simp only [List.foldl_cons]
    rw [ih _ _ hrest]
    exact lookupA_setA_ne _ _ _ _ hne

theorem foldl_orchJoinStep_meta (peers : List PeerInfo) :
    ∀ st : OrchState, (peers.map PeerInfo.peerId).Nodup →
      ∀ pr ∈ peers, lookupA (peers.foldl orchJoinStep st).peerMeta pr.peerId
        = some (pr.username, pr.avatarSeed) := by
  induction peers with
  | nil => intro st _ pr h; simp at h
  | cons q rest ih =>
    intro st hnd pr hmem
    have hnd' : (rest.map PeerInfo.peerId).Nodup := (List.nodup_cons.mp hnd).2
    have hqnotin : q.peerId ∉ rest.map PeerInfo.peerId := (List.nodup_cons.mp hnd).1
    rcases List.mem_cons.mp hmem with h | h
    · subst h
      simp only [List.foldl_cons]
      rw [foldl_orchJoinStep_meta_preserved rest _ _ hqnotin]
      exact lookupA_setA_self _ _ _
    · simp only [List.foldl_cons]
      exact ih _ hnd' pr h

/-- C8.  On the relay's `joined` acknowledgment the orchestrator records the
display metadata of every listed peer and calls `initiateCall` for each (one
offer per roster entry, in order), marking the room connected; on
`peer-joined` it only records the newcomer's metadata — the mesh state is
untouched and no call is initiated. -/
theorem roster_initiate (st : OrchState) (peers : List PeerInfo) (q : PeerInfo)
    (hnd : (peers.map PeerInfo.peerId).Nodup) :
    (orchJoined st peers).mesh.signalsSent
        = st.mesh.signalsSent ++ peers.map (fun pr => Signal.offer pr.peerId) ∧
    (orchJoined st peers).status = "connected" ∧
    (∀ pr ∈ peers, lookupA (orchJoined st peers).peerMeta pr.peerId
        = some (pr.username, pr.avatarSeed)) ∧
    (orchPeerJoined st q).mesh = st.mesh ∧
    (orchPeerJoined st q).status = st.status ∧
    lookupA (orchPeerJoined st q).peerMeta q.peerId = some (q.username, q.avatarSeed) := by
  refine ⟨?_, ?_, ?_, rfl, rfl, lookupA_setA_self _ _ _⟩
  · exact foldl_orchJoinStep_signals peers { st with status := "connected" }
  · rw [orchJoined, foldl_orchJoinStep_status]
  · intro pr hmem
    exact foldl_orchJoinStep_meta peers { st with status := "connected" } hnd pr hmem

/-- C8 witness: a one-peer roster sends exactly one offer; a `peer-joined`
leaves the mesh untouched. -/
theorem roster_initiate_witness :
    (orchJoined { mesh := meshInit, peerMeta := [], status := "connecting" }
        [{ peerId := "a", username := "A", avatarSeed := "s1" }]).mesh.signalsSent
      = [Signal.offer "a"] ∧
    (orchPeerJoined { mesh := meshInit, peerMeta := [], status := "connecting" }
        { peerId := "b", username := "B", avatarSeed := "s2" }).mesh = meshInit := by
  have h := roster_initiate { mesh := meshInit, peerMeta := [], status := "connecting" }
    [{ peerId := "a", username := "A", avatarSeed := "s1" }]
    { peerId := "b", username := "B", avatarSeed := "s2" } (by decide)
  exact ⟨h.1, h.2.2.2.1⟩

/-! ### C9: broadcastFile sends only to open channels and never queues -/

/-- C9.  `broadcastFile` touches nothing but the open data channels: the
pending queues, peer connections, transfer slots and delivery trace are
unchanged; a channel whose `readyState` is `'open'` gets the whole frame
sequence of the file appended, any other channel (in particular
`'connecting'`) is skipped and nothing is queued for it; and the open-time
drain only ever forwards queue entries typed `'text'`. -/
theorem broadcastFile_open_only (st : MeshState) (f : FileData) (sm : SenderMeta)
    (tid : String) (p : String) (ch : DC) (q : List QueueItem)
    (hch : lookupA st.dataChannels p = some ch) :
    (broadcastFile st f sm tid).pendingMessages = st.pendingMessages ∧
    (broadcastFile st f sm tid).peerConnections = st.peerConnections ∧
    (broadcastFile st f sm tid).inboundFiles = st.inboundFiles ∧
    (broadcastFile st f sm tid).delivered = st.delivered ∧
    lookupA (broadcastFile st f sm tid).dataChannels p
      = some (if ch.ready = "open"
          then { ch with sent := ch.sent ++ sendFileFrames f sm tid } else ch) ∧
    drainFrames q = (q.filter (fun it => it.type == "text")).map (fun it => it.payload) ∧
    (∀ it ∈ q, it.type ≠ "text" → it ∉ q.filter (fun it2 => it2.type == "text")) := by
  refine ⟨rfl, rfl, rfl, rfl, ?_, rfl, ?_⟩
  · simp only [broadcastFile]
    rw [lookupA_mapValA, hch]
    rfl
  · intro it _ hne hcontra
    have hty := (List.mem_filter.mp hcontra).2
    simp only [beq_iff_eq] at hty
    exact hne hty

/-- C9 witness: with one open and one connecting channel, the connecting one
is left exactly as it was. -/
theorem broadcastFile_open_only_witness :
    lookupA (broadcastFile
        { meshInit with dataChannels :=
            [("a", { ready := "open", sent := [] }), ("b", { ready := "connecting", sent := [] })] }
        { name := "f", mimeType := "m", bytes := [1] } {} "t").dataChannels "b"
      = some { ready := "connecting", sent := [] } := by
  have h := broadcastFile_open_only
    { meshInit with dataChannels :=
        [("a", { ready := "open", sent := [] }), ("b", { ready := "connecting", sent := [] })] }
    { name := "f", mimeType := "m", bytes := [1] } {} "t" "b"
    { ready := "connecting", sent := [] } [] (by decide)
  have h5 := h.2.2.2.2.1
  rw [if_neg (by decide)] at h5
  exact h5

/-! ### C10: disconnect cleanup removes all per-peer state atomically -/

theorem cleanupPeer_noop (st : MeshState) (p : String)
    (h1 : lookupA st.peerConnections p = none) (h2 : lookupA st.dataChannels p = none)
    (h3 : lookupA st.inboundFiles p = none) (h4 : lookupA st.pendingMessages p = none) :
    cleanupPeer st p = st := by
  unfold cleanupPeer
  rw [eraseA_of_lookup_none _ _ h1, eraseA_of_lookup_none _ _ h2,
      eraseA_of_lookup_none _ _ h3, eraseA_of_lookup_none _ _ h4]
  simp only [h1]

/-- C10.  When the transport reports `disconnected`, `failed` or `closed`
for a peer with a live record, everything local to that peer goes in one
step — connection, channel, in-progress inbound transfer and pending queue —
with no message delivered from the interrupted transfer, the peer reported as
left, every other peer's entries untouched, and a second cleanup of the
now-absent peer a no-op. -/
theorem peer_cleanup_total (st : MeshState) (p : String) (pc : PC) (s : String)
    (hpc : lookupA st.peerConnections p = some pc)
    (hs : s = "disconnected" ∨ s = "failed" ∨ s = "closed")
    (h₁ : keysNodup st.peerConnections) (h₂ : keysNodup st.dataChannels)
    (h₃ : keysNodup st.inboundFiles) (h₄ : keysNodup st.pendingMessages) :
    lookupA (connStateChange st p s).peerConnections p = none ∧
    lookupA (connStateChange st p s).dataChannels p = none ∧
    lookupA (connStateChange st p s).inboundFiles p = none ∧
    lookupA (connStateChange st p s).pendingMessages p = none ∧
    (connStateChange st p s).delivered = st.delivered ∧
    (connStateChange st p s).peersLeft = st.peersLeft ++ [p] ∧
    (∀ q, q ≠ p →
        lookupA (connStateChange st p s).peerConnections q = lookupA st.peerConnections q ∧
        lookupA (connStateChange st p s).dataChannels q = lookupA st.dataChannels q ∧
        lookupA (connStateChange st p s).inboundFiles q = lookupA st.inboundFiles q ∧
        lookupA (connStateChange st p s).pendingMessages q = lookupA st.pendingMessages q) ∧
    cleanupPeer (connStateChange st p s) p = connStateChange st p s := by
  have hupd : lookupA (updateA st.peerConnections p (fun r => { r with connState := s })) p
      = some { pc with connState := s } := by
    rw [lookupA_updateA_self, hpc]
    rfl
  have hform : connStateChange st p s
      = { st with
          peerConnections :=
            eraseA (updateA st.peerConnections p (fun r => { r with connState := s })) p
          dataChannels := eraseA st.dataChannels p
          inboundFiles := eraseA st.inboundFiles p
          pendingMessages := eraseA st.pendingMessages p
          closedPCs := pc.id :: st.closedPCs
          peersLeft := st.peersLeft ++ [p] } := by
    simp only [connStateChange, hpc]
    rw [if_pos hs]
    simp [cleanupPeer, hupd]
  have hnd1 : keysNodup (updateA st.peerConnections p (fun r => { r with connState := s })) :=
    keysNodup_updateA _ _ _ h₁
  have c1 : lookupA (connStateChange st p s).peerConnections p = none := by
    rw [hform]
    exact lookupA_eraseA_self _ _ hnd1
  have c2 : lookupA (connStateChange st p s).dataChannels p = none := by
    rw [hform]
    exact lookupA_eraseA_self _ _ h₂
  have c3 : lookupA (connStateChange st p s).inboundFiles p = none := by
    rw [hform]
    exact lookupA_eraseA_self _ _ h₃
  have c4 : lookupA (connStateChange st p s).pendingMessages p = none := by
    rw [hform]
    exact lookupA_eraseA_self _ _ h₄
  refine ⟨c1, c2, c3, c4, by rw [hform], by rw [hform], ?_, ?_⟩
  · intro q hq
    refine ⟨?_, ?_, ?_, ?_⟩ <;> rw [hform]
    · exact (lookupA_eraseA_ne _ _ _ hq).trans (lookupA_updateA_ne _ _ _ _ hq)
    · exact lookupA_eraseA_ne _ _ _ hq
    · exact lookupA_eraseA_ne _ _ _ hq
    · exact lookupA_eraseA_ne _ _ _ hq
  · exact cleanupPeer_noop _ _ c1 c2 c3 c4

/-- C10 witness: a `failed` report for the only connected peer empties the
per-peer maps and reports the peer as left. -/
theorem peer_cleanup_total_witness :
    lookupA (connStateChange (runOps [Op.initiateCall "a"]) "a" "failed").peerConnections "a"
      = none ∧
    (connStateChange (runOps [Op.initiateCall "a"]) "a" "failed").peersLeft = ["a"] := by
  have h := peer_cleanup_total (runOps [Op.initiateCall "a"]) "a"
    { id := 0, role := Role.initiator, sig := SigState.haveLocalOffer
      connState := "new", candidates := [] } "failed"
    (by decide) (Or.inr (Or.inl rfl)) (by decide) (by decide) (by decide) (by decide)
  exact ⟨h.1, by simpa using h.2.2.2.2.2.1⟩

/-! ### C3: text sends while connecting are queued and flushed once, FIFO -/

theorem dcOpen_noop (st : MeshState) (p : String) (ch : DC)
    (hch : lookupA st.dataChannels p = some ch) (hready : ch.ready = "open")
    (hq : lookupA st.pendingMessages p = none) :
    dcOpen st p = st := by
  simp only [dcOpen, hch, hq]
  have hch' : DC.mk "open" (ch.sent ++ drainFrames ((none : Option (List QueueItem)).getD [])) = ch := by
    cases ch with
    | mk r snt =>
      simp only [DC.ready] at hready
      subst hready
      simp [drainFrames]
  rw [hch', setA_eq_of_lookup _ _ _ hch, eraseA_of_lookup_none _ _ hq]

/-- C3.  A text broadcast reaching a peer whose channel is `'connecting'` is
appended to that peer's pending queue (nothing is sent on the channel yet);
when the channel opens, the whole queue is sent in FIFO order — the new
message after everything queued before it — the queue is deleted, and a
second open event sends nothing more: the flush happens exactly once. -/
theorem text_queue_flush (st : MeshState) (p : String) (ch : DC)
    (sid sn av : String) (ts : Nat) (body : String)
    (hch : lookupA st.dataChannels p = some ch)
    (hconn : ch.ready = "connecting")
    (hdc : keysNodup st.dataChannels)
    (hpm : keysNodup st.pendingMessages)
    (htext : ∀ it ∈ (lookupA st.pendingMessages p).getD [], it.type = "text") :
    lookupA (broadcastText st sid sn av ts body).pendingMessages p
      = some ((lookupA st.pendingMessages p).getD []
          ++ [{ type := "text", payload := Frame.text sid sn av ts body }]) ∧
    lookupA (broadcastText st sid sn av ts body).dataChannels p = some ch ∧
    lookupA (dcOpen (broadcastText st sid sn av ts body) p).dataChannels p
      = some (DC.mk "open"
          (ch.sent ++ (((lookupA st.pendingMessages p).getD []).map (fun it => it.payload)
            ++ [Frame.text sid sn av ts body]))) ∧
    lookupA (dcOpen (broadcastText st sid sn av ts body) p).pendingMessages p = none ∧
    dcOpen (dcOpen (broadcastText st sid sn av ts body) p) p
      = dcOpen (broadcastText st sid sn av ts body) p := by
  have hnotopen : ch.ready ≠ "open" := by
    rw [hconn]
    decide
  have hA : lookupA (broadcastText st sid sn av ts body).dataChannels p = some ch := by
    simp only [broadcastText]
    rw [lookupA_mapValA, hch]
    simp [hnotopen]
  have hB : lookupA (broadcastText st sid sn av ts body).pendingMessages p
      = some ((lookupA st.pendingMessages p).getD []
          ++ [{ type := "text", payload := Frame.text sid sn av ts body }]) := by
    simp only [broadcastText]
    exact lookupA_queueConnecting_self st.dataChannels _ st.pendingMessages p ch hdc hch hconn
  have hdrain : drainFrames ((lookupA st.pendingMessages p).getD []
        ++ [{ type := "text", payload := Frame.text sid sn av ts body }])
      = ((lookupA st.pendingMessages p).getD []).map (fun it => it.payload)
          ++ [Frame.text sid sn av ts body] := by
    unfold drainFrames
    rw [List.filter_append]
    have hq : ((lookupA st.pendingMessages p).getD []).filter (fun it => it.type == "text")
        = (lookupA st.pendingMessages p).getD [] := by
      apply List.filter_eq_self.mpr
      intro it hit
      simpa using htext it hit
    rw [hq]
    simp
  have hC : lookupA (dcOpen (broadcastText st sid sn av ts body) p).dataChannels p
      = some (DC.mk "open"
          (ch.sent ++ (((lookupA st.pendingMessages p).getD []).map (fun it => it.payload)
            ++ [Frame.text sid sn av ts body]))) := by
    simp only [dcOpen, hA, hB]
    rw [lookupA_setA_self]
    rw [show (Option.some ((lookupA st.pendingMessages p).getD []
        ++ [{ type := "text", payload := Frame.text sid sn av ts body }])).getD [] =
        (lookupA st.pendingMessages p).getD []
          ++ [{ type := "text", payload := Frame.text sid sn av ts body }] from rfl]
    rw [hdrain]
  have hpm1 : keysNodup (broadcastText st sid sn av ts body).pendingMessages := by
    simp only [broadcastText]
    exact keysNodup_queueConnecting _ _ _ hpm
  have hD : lookupA (dcOpen (broadcastText st sid sn av ts body) p).pendingMessages p = none := by
    simp only [dcOpen, hA, hB]
    exact lookupA_eraseA_self _ _ hpm1
  refine ⟨hB, hA, hC, hD, ?_⟩
  exact dcOpen_noop _ p _ hC rfl hD

/-- C3 witness: one message queued on a fresh connecting channel is delivered
exactly once when the channel opens. -/
theorem text_queue_flush_witness :
    lookupA (broadcastText
        { meshInit with dataChannels := [("b", { ready := "connecting", sent := [] })] }
        "s" "n" "av" 5 "hi").pendingMessages "b"
      = some [{ type := "text", payload := Frame.text "s" "n" "av" 5 "hi" }] ∧
    lookupA (dcOpen (broadcastText
        { meshInit with dataChannels := [("b", { ready := "connecting", sent := [] })] }
        "s" "n" "av" 5 "hi") "b").dataChannels "b"
      = some { ready := "open", sent := [Frame.text "s" "n" "av" 5 "hi"] } := by
  have h := text_queue_flush
    { meshInit with dataChannels := [("b", { ready := "connecting", sent := [] })] }
    "b" { ready := "connecting", sent := [] } "s" "n" "av" 5 "hi"
    (by decide) rfl (by decide) (by decide) (by intro it hit; simp [meshInit, lookupA] at hit)
  exact ⟨by simpa using h.1, by simpa using h.2.2.1⟩

/-! ### Membership lemmas for the invariant induction -/

theorem mem_eraseA {α : Type} (l : List (String × α)) (k : String) (pr : String × α)
    (h : pr ∈ eraseA l k) : pr ∈ l := by
  induction l with
  | nil => simpa [eraseA] using h
  | cons kv rest ih =>
    obtain ⟨a, w⟩ := kv
    by_cases ha : a = k
    · simp only [eraseA, if_pos ha] at h
      exact List.mem_cons_of_mem _ h
    · simp only [eraseA, if_neg ha] at h
      rcases List.mem_cons.mp h with h' | h'
      · exact h' ▸ List.mem_cons_self _ _
      · exact List.mem_cons_of_mem _ (ih h')

theorem mem_setA {α : Type} (l : List (String × α)) (k : String) (v : α) (pr : String × α)
    (h : pr ∈ setA l k v) : pr ∈ l ∨ pr = (k, v) := by
  induction l with
  | nil =>
    simp only [setA, List.mem_singleton] at h
    exact Or.inr h
  | cons kv rest ih =>
    obtain ⟨a, w⟩ := kv
    by_cases ha : a = k
    · simp only [setA, if_pos ha] at h
      rcases List.mem_cons.mp h with h' | h'
      · exact Or.inr h'
      · exact Or.inl (List.mem_cons_of_mem _ h')
    · simp only [setA, if_neg ha] at h
      rcases List.mem_cons.mp h with h' | h'
      · exact Or.inl (h' ▸ List.mem_cons_self _ _)
      · rcases ih h' with h'' | h''
        · exact Or.inl (List.mem_cons_of_mem _ h'')
        · exact Or.inr h''

theorem mem_updateA {α : Type} (l : List (String × α)) (k : String) (f : α → α)
    (pr : String × α) (h : pr ∈ updateA l k f) :
    pr ∈ l ∨ ∃ w, (k, w) ∈ l ∧ pr = (k, f w) := by
  induction l with
  | nil => simpa [updateA] using h
  | cons kv rest ih =>
    obtain ⟨a, w⟩ := kv
    by_cases ha : a = k
    · simp only [updateA, if_pos ha] at h
      rcases List.mem_cons.mp h with h' | h'
      · subst ha
        exact Or.inr ⟨w, List.mem_cons_self _ _, h'⟩
      · exact Or.inl (List.mem_cons_of_mem _ h')
    · simp only [updateA, if_neg ha] at h
      rcases List.mem_cons.mp h with h' | h'
      · exact Or.inl (h' ▸ List.mem_cons_self _ _)
      · rcases ih h' with h'' | ⟨w', hw', hpr'⟩
        · exact Or.inl (List.mem_cons_of_mem _ h'')
        · exact Or.inr ⟨w', List.mem_cons_of_mem _ hw', hpr'⟩

theorem mem_of_lookupA {α : Type} (l : List (String × α)) (k : String) (v : α)
    (h : lookupA l k = some v) : (k, v) ∈ l := by
  induction l with
  | nil => simp [lookupA] at h
  | cons kv rest ih =>
    obtain ⟨a, w⟩ := kv
    by_cases ha : a = k
    · simp only [lookupA, if_pos ha] at h
      obtain rfl := Option.some.inj h
      subst ha
      exact List.mem_cons_self _ _
    · simp only [lookupA, if_neg ha] at h
      exact List.mem_cons_of_mem _ (ih h)

theorem lookupA_of_mem {α : Type} (l : List (String × α)) (h : keysNodup l)
    (k : String) (v : α) (hm : (k, v) ∈ l) : lookupA l k = some v := by
  induction l with
  | nil => simp at hm
  | cons kv rest ih =>
    obtain ⟨a, w⟩ := kv
    obtain ⟨hnotin, hrest⟩ := (keysNodup_cons_iff a w rest).mp h
    rcases List.mem_cons.mp hm with h' | h'
    · obtain ⟨h1, h2⟩ := Prod.mk.injEq k v a w ▸ h'
      subst h1
      subst h2
      simp [lookupA]
    · by_cases ha : a = k
      · exfalso
        subst ha
        exact hnotin (by
          simp only [keysOf, List.mem_map]
          exact ⟨(a, v), h', rfl⟩)
      · simp only [lookupA, if_neg ha]
        exact ih hrest h'

/-! ### Invariant preservation for every operation -/

theorem meshInv_mk (pcs : List (String × PC)) (dcs : List (String × DC))
    (inb : List (String × InboundEntry)) (pend : List (String × List QueueItem))
    (del : List Delivered) (pj pl : List String) (ss : List Signal) (cp : List Nat) (n : Nat)
    (h1 : keysNodup pcs) (h2 : keysNodup dcs) (h3 : keysNodup inb) (h4 : keysNodup pend)
    (h5 : ∀ pr ∈ pcs, pr.2.id < n)
    (h6 : ∀ pr ∈ pcs, pr.2.sig = SigState.haveLocalOffer → pr.2.role = Role.initiator) :
    MeshInv (MeshState.mk pcs dcs inb pend del pj pl ss cp n) :=
  ⟨h1, h2, h3, h4, h5, h6⟩

theorem meshInv_meshInit : MeshInv meshInit := by
  refine ⟨?_, ?_, ?_, ?_, ?_, ?_⟩ <;> simp [meshInit, keysNodup, keysOf]

theorem meshInv_cleanupPeer (st : MeshState) (p : String) (h : MeshInv st) :
    MeshInv (cleanupPeer st p) := by
  obtain ⟨a1, a2, a3, a4, a5, a6⟩ := h
  refine ⟨keysNodup_eraseA _ _ a1, keysNodup_eraseA _ _ a2,
    keysNodup_eraseA _ _ a3, keysNodup_eraseA _ _ a4, ?_, ?_⟩
  · intro pr hpr
    exact a5 pr (mem_eraseA _ _ _ hpr)
  · intro pr hpr
    exact a6 pr (mem_eraseA _ _ _ hpr)

theorem meshInv_insert_fresh (st : MeshState) (p : String) (r : Role) (h : MeshInv st) :
    MeshInv { st with
        peerConnections := setA st.peerConnections p (PC.mk st.nextId r SigState.stable "new" [])
        nextId := st.nextId + 1 } := by
  obtain ⟨a1, a2, a3, a4, a5, a6⟩ := h
  refine ⟨keysNodup_setA _ _ _ a1, a2, a3, a4, ?_, ?_⟩
  · intro pr hpr
    rcases mem_setA _ _ _ _ hpr with h' | h'
    · exact Nat.lt_succ_of_lt (a5 pr h')
    · subst h'
      exact Nat.lt_succ_self _
  · intro pr hpr hs
    rcases mem_setA _ _ _ _ hpr with h' | h'
    · exact a6 pr h' hs
    · subst h'
      simp at hs

theorem meshInv_createPeerConnection (st : MeshState) (p : String) (r : Role)
    (h : MeshInv st) : MeshInv (createPeerConnection st p r) := by
  unfold createPeerConnection
  by_cases hc : (lookupA st.peerConnections p).isSome = true
  · rw [if_pos hc]
    exact meshInv_insert_fresh (cleanupPeer st p) p r (meshInv_cleanupPeer st p h)
  · rw [if_neg hc]
    exact meshInv_insert_fresh st p r h

theorem lookupA_createPeerConnection (st : MeshState) (p : String) (r : Role) :
    lookupA (createPeerConnection st p r).peerConnections p
      = some (PC.mk st.nextId r SigState.stable "new" []) := by
  unfold createPeerConnection
  by_cases hc : (lookupA st.peerConnections p).isSome = true
  · rw [if_pos hc]
    exact lookupA_setA_self _ _ _
  · rw [if_neg hc]
    exact lookupA_setA_self _ _ _

theorem createPeerConnection_nextId (st : MeshState) (p : String) (r : Role) :
    (createPeerConnection st p r).nextId = st.nextId + 1 := by
  unfold createPeerConnection
  by_cases hc : (lookupA st.peerConnections p).isSome = true
  · rw [if_pos hc]
    rfl
  · rw [if_neg hc]


theorem meshInv_updateA_pc (st : MeshState) (p : String) (f : PC → PC)
    (hid : ∀ r, (f r).id = r.id) (hrole : ∀ r, (f r).role = r.role)
    (hsig : ∀ r, (f r).sig = SigState.haveLocalOffer → r.sig = SigState.haveLocalOffer)
    (h : MeshInv st) :
    MeshInv { st with peerConnections := updateA st.peerConnections p f } := by
  obtain ⟨a1, a2, a3, a4, a5, a6⟩ := h
  refine ⟨keysNodup_updateA _ _ _ a1, a2, a3, a4, ?_, ?_⟩
  · intro pr hpr
    rcases mem_updateA _ _ _ _ hpr with h' | ⟨w, hw, hpr'⟩
    · exact a5 pr h'
    · subst hpr'
      simpa [hid w] using a5 (p, w) hw
  · intro pr hpr hs
    rcases mem_updateA _ _ _ _ hpr with h' | ⟨w, hw, hpr'⟩
    · exact a6 pr h' hs
    · subst hpr'
      have hs' : w.sig = SigState.haveLocalOffer := hsig w (by simpa using hs)
      simpa [hrole w] using a6 (p, w) hw hs'

theorem meshInv_updateA_sig_init (st : MeshState) (p : String)
    (hlk : ∀ w, lookupA st.peerConnections p = some w → w.role = Role.initiator)
    (h : MeshInv st) :
    MeshInv { st with peerConnections := updateA st.peerConnections p (fun pc => { pc with sig := SigState.haveLocalOffer }) } := by
  obtain ⟨a1, a2, a3, a4, a5, a6⟩ := h
  refine ⟨keysNodup_updateA _ _ _ a1, a2, a3, a4, ?_, ?_⟩
  · intro pr hpr
    rcases mem_updateA _ _ _ _ hpr with h' | ⟨w, hw, hpr'⟩
    · exact a5 pr h'
    · subst hpr'
      simpa using a5 (p, w) hw
  · intro pr hpr _
    rcases mem_updateA _ _ _ _ hpr with h' | ⟨w, hw, hpr'⟩
    · exact a6 pr h' (by assumption)
    · subst hpr'
      have := lookupA_of_mem st.peerConnections a1 p w hw
      simpa using hlk w this

theorem meshInv_initiateCall (st : MeshState) (p : String) (h : MeshInv st) :
    MeshInv (initiateCall st p) := by
  set c1 := createPeerConnection st p Role.initiator with hc1
  have h1 : MeshInv c1 := meshInv_createPeerConnection st p Role.initiator h
  obtain ⟨a1, a2, a3, a4, a5, a6⟩ := h1
  have h2 : MeshInv { c1 with dataChannels := setA c1.dataChannels p (DC.mk "connecting" []) } :=
    ⟨a1, keysNodup_setA _ _ _ a2, a3, a4, a5, a6⟩
  have hlk : ∀ w, lookupA ({ c1 with dataChannels := setA c1.dataChannels p (DC.mk "connecting" []) }).peerConnections p = some w → w.role = Role.initiator := by
    intro w hw
    have hl2 : lookupA c1.peerConnections p = some w := hw
    rw [hc1, lookupA_createPeerConnection st p Role.initiator] at hl2
    obtain rfl := Option.some.inj hl2
    rfl
  exact meshInv_updateA_sig_init _ p hlk h2

theorem meshInv_handleOffer (st : MeshState) (p : String) (h : MeshInv st) :
    MeshInv (handleOffer st p) := by
  have h1 : MeshInv (createPeerConnection st p Role.responder) :=
    meshInv_createPeerConnection st p Role.responder h
  exact meshInv_updateA_pc (createPeerConnection st p Role.responder) p
    (fun pc => { pc with sig := SigState.stable })
    (fun r => rfl) (fun r => rfl)
    (fun r hr => by simp at hr) h1

theorem meshInv_handleAnswer (st : MeshState) (p : String) (h : MeshInv st) :
    MeshInv (handleAnswer st p) := by
  unfold handleAnswer
  cases hlk : lookupA st.peerConnections p with
  | none => exact h
  | some pc =>
    by_cases hs : pc.sig = SigState.haveLocalOffer
    · simp only [hs, if_pos rfl]
      exact meshInv_updateA_pc st p (fun r => { r with sig := SigState.stable })
        (fun r => rfl) (fun r => rfl) (fun r hr => by simp at hr) h
    · simp only [if_neg hs]
      exact h

theorem meshInv_handleIceCandidate (st : MeshState) (p : String) (c : String)
    (h : MeshInv st) : MeshInv (handleIceCandidate st p c) := by
  unfold handleIceCandidate
  cases hlk : lookupA st.peerConnections p with
  | none => exact h
  | some pc =>
    exact meshInv_updateA_pc st p (fun r => { r with candidates := r.candidates ++ [c] })
      (fun r => rfl) (fun r => rfl) (fun r hr => hr) h

theorem meshInv_connStateChange (st : MeshState) (p : String) (s : String)
    (h : MeshInv st) : MeshInv (connStateChange st p s) := by
  unfold connStateChange
  cases hlk : lookupA st.peerConnections p with
  | none => exact h
  | some pc =>
    have h1 : MeshInv { st with peerConnections := updateA st.peerConnections p (fun r => { r with connState := s }) } :=
      meshInv_updateA_pc st p (fun r => { r with connState := s })
        (fun r => rfl) (fun r => rfl) (fun r hr => hr) h
    by_cases hcond : s = "disconnected" ∨ s = "failed" ∨ s = "closed"
    · simp only [if_pos hcond]
      exact meshInv_cleanupPeer _ p h1
    · simp only [if_neg hcond]
      exact h1

theorem meshInv_dcMessage (st : MeshState) (p : String) (f : Frame) (h : MeshInv st) :
    MeshInv (handleDataChannelMessage st p f) := by
  obtain ⟨a1, a2, a3, a4, a5, a6⟩ := h
  cases f with
  | text sid sn av ts body => exact ⟨a1, a2, a3, a4, a5, a6⟩
  | fileMeta m => exact ⟨a1, a2, keysNodup_setA _ _ _ a3, a4, a5, a6⟩
  | fileEnd =>
    unfold handleDataChannelMessage
    cases hlk : lookupA st.inboundFiles p with
    | none => exact ⟨a1, a2, a3, a4, a5, a6⟩
    | some e => exact ⟨a1, a2, keysNodup_eraseA _ _ a3, a4, a5, a6⟩
  | chunk b =>
    unfold handleDataChannelMessage
    cases hlk : lookupA st.inboundFiles p with
    | none => exact ⟨a1, a2, a3, a4, a5, a6⟩
    | some e => exact ⟨a1, a2, keysNodup_setA _ _ _ a3, a4, a5, a6⟩
  | notJson r => exact ⟨a1, a2, a3, a4, a5, a6⟩

theorem meshInv_dcOpen (st : MeshState) (p : String) (h : MeshInv st) :
    MeshInv (dcOpen st p) := by
  obtain ⟨a1, a2, a3, a4, a5, a6⟩ := h
  unfold dcOpen
  cases hlk : lookupA st.dataChannels p with
  | none => exact ⟨a1, a2, a3, a4, a5, a6⟩
  | some ch => exact ⟨a1, keysNodup_setA _ _ _ a2, a3, keysNodup_eraseA _ _ a4, a5, a6⟩

theorem meshInv_foldl_cleanup (ks : List String) :
    ∀ st : MeshState, MeshInv st → MeshInv (ks.foldl cleanupPeer st) := by
  induction ks with
  | nil => intro st h; exact h
  | cons k rest ih => intro st h; exact ih _ (meshInv_cleanupPeer st k h)

theorem meshInv_step (st : MeshState) (op : Op) (h : MeshInv st) : MeshInv (step st op) := by
  cases op with
  | initiateCall p => exact meshInv_initiateCall st p h
  | handleOffer p => exact meshInv_handleOffer st p h
  | handleAnswer p => exact meshInv_handleAnswer st p h
  | handleIceCandidate p c => exact meshInv_handleIceCandidate st p c h
  | onDataChannel p r =>
    obtain ⟨a1, a2, a3, a4, a5, a6⟩ := h
    show MeshInv (onDataChannel st p r)
    unfold onDataChannel
    exact ⟨a1, keysNodup_setA _ _ _ a2, a3, a4, a5, a6⟩
  | dcOpen p => exact meshInv_dcOpen st p h
  | dcMessage p f => exact meshInv_dcMessage st p f h
  | connStateChange p s => exact meshInv_connStateChange st p s h
  | broadcastText sid sn av ts body =>
    obtain ⟨a1, a2, a3, a4, a5, a6⟩ := h
    show MeshInv (broadcastText st sid sn av ts body)
    unfold broadcastText
    exact meshInv_mk _ _ _ _ _ _ _ _ _ _ a1 (keysNodup_mapValA _ _ a2) a3
      (keysNodup_queueConnecting _ _ _ a4) a5 a6
  | broadcastFile f sm tid =>
    obtain ⟨a1, a2, a3, a4, a5, a6⟩ := h
    show MeshInv (broadcastFile st f sm tid)
    unfold broadcastFile
    exact meshInv_mk _ _ _ _ _ _ _ _ _ _ a1 (keysNodup_mapValA _ _ a2) a3 a4 a5 a6
  | cleanup p => exact meshInv_cleanupPeer st p h
  | disconnectAll => exact meshInv_foldl_cleanup _ st h

theorem meshInv_foldl_step (ops : List Op) :
    ∀ st : MeshState, MeshInv st → MeshInv (ops.foldl step st) := by
  induction ops with
  | nil => intro st h; exact h
  | cons op rest ih => intro st h; exact ih _ (meshInv_step st op h)

/-- Every state reachable from the initial state by any event sequence
satisfies the structural invariant. -/
theorem meshInv_runOps (ops : List Op) : MeshInv (runOps ops) :=
  meshInv_foldl_step ops meshInit meshInv_meshInit

/-! ### C2: at most one live connection record per peer -/

/-- C2.  In every state reachable by any sequence of operations, the four
per-peer maps have pairwise-distinct keys — at most one live record per peer
at any time.  Negotiating again with a peer that already has a record (an
incoming offer while this side's own offer is outstanding, or a fresh
`initiateCall`) first closes the existing `RTCPeerConnection` (its id enters
the closed trace) and replaces it with a single fresh record with a new id;
the invariant holds again afterwards, so the two never coexist. -/
theorem connectionRecord_unique (ops : List Op) (p : String) (pc : PC)
    (h : lookupA (runOps ops).peerConnections p = some pc) :
    MeshInv (runOps ops) ∧
    lookupA (handleOffer (runOps ops) p).peerConnections p
      = some (PC.mk (runOps ops).nextId Role.responder SigState.stable "new" []) ∧
    pc.id ∈ (handleOffer (runOps ops) p).closedPCs ∧
    pc.id ≠ (runOps ops).nextId ∧
    MeshInv (handleOffer (runOps ops) p) ∧
    lookupA (initiateCall (runOps ops) p).peerConnections p
      = some (PC.mk (runOps ops).nextId Role.initiator SigState.haveLocalOffer "new" []) ∧
    pc.id ∈ (initiateCall (runOps ops) p).closedPCs ∧
    MeshInv (initiateCall (runOps ops) p) := by
  have hInv := meshInv_runOps ops
  have hidlt : pc.id < (runOps ops).nextId :=
    hInv.2.2.2.2.1 (p, pc) (mem_of_lookupA _ _ _ h)
  have hclosed : (createPeerConnection (runOps ops) p Role.responder).closedPCs
      = pc.id :: (runOps ops).closedPCs := by
    unfold createPeerConnection
    rw [if_pos (by rw [h]; rfl)]
    simp [cleanupPeer, h]
  have hclosedInit : (createPeerConnection (runOps ops) p Role.initiator).closedPCs
      = pc.id :: (runOps ops).closedPCs := by
    unfold createPeerConnection
    rw [if_pos (by rw [h]; rfl)]
    simp [cleanupPeer, h]
  refine ⟨hInv, ?_, ?_, Nat.ne_of_lt hidlt, meshInv_handleOffer _ p hInv, ?_, ?_,
    meshInv_initiateCall _ p hInv⟩
  · show lookupA (updateA (createPeerConnection (runOps ops) p Role.responder).peerConnections p
        (fun r => { r with sig := SigState.stable })) p
      = some (PC.mk (runOps ops).nextId Role.responder SigState.stable "new" [])
    rw [lookupA_updateA_self, lookupA_createPeerConnection]
    rfl
  · have hh : (handleOffer (runOps ops) p).closedPCs = pc.id :: (runOps ops).closedPCs := hclosed
    rw [hh]
    exact List.mem_cons_self _ _
  · show lookupA (updateA (createPeerConnection (runOps ops) p Role.initiator).peerConnections p
        (fun r => { r with sig := SigState.haveLocalOffer })) p
      = some (PC.mk (runOps ops).nextId Role.initiator SigState.haveLocalOffer "new" [])
    rw [lookupA_updateA_self, lookupA_createPeerConnection]
    rfl
  · have hh : (initiateCall (runOps ops) p).closedPCs = pc.id :: (runOps ops).closedPCs :=
      hclosedInit
    rw [hh]
    exact List.mem_cons_self _ _

/-- C2 witness: after one `initiateCall`, a remote offer for the same peer
closes record 0 and replaces it with the single fresh responder record 1. -/
theorem connectionRecord_unique_witness :
    lookupA (handleOffer (runOps [Op.initiateCall "a"]) "a").peerConnections "a"
      = some (PC.mk 1 Role.responder SigState.stable "new" []) ∧
    (0 : Nat) ∈ (handleOffer (runOps [Op.initiateCall "a"]) "a").closedPCs ∧
    (0 : Nat) ≠ (runOps [Op.initiateCall "a"]).nextId := by
  have h := connectionRecord_unique [Op.initiateCall "a"] "a"
    (PC.mk 0 Role.initiator SigState.haveLocalOffer "new" []) (by decide)
  exact ⟨h.2.1, h.2.2.1, h.2.2.2.1⟩

/-! ### C5: answers apply only to an initiator record awaiting one -/

/-- C5.  `handleAnswer` changes state only when a record exists for the peer
in role `initiator` with its local offer outstanding (`have-local-offer`,
the spec's initiator-`NEGOTIATING` state): that record's negotiation then
completes to `stable` (the spec's `CONNECTING`, awaiting the transport) and
nothing else changes.  An answer for an unknown record, for a `responder`
record, or for a record not awaiting an answer leaves the whole state
untouched — reachability supplies the fact that a responder record is never
in `have-local-offer`. -/
theorem handleAnswer_initiator_only (ops : List Op) (p : String) (pc : PC)
    (h : lookupA (runOps ops).peerConnections p = some pc) :
    (∀ q, lookupA (runOps ops).peerConnections q = none →
        handleAnswer (runOps ops) q = runOps ops) ∧
    (pc.role = Role.responder → handleAnswer (runOps ops) p = runOps ops) ∧
    (pc.sig ≠ SigState.haveLocalOffer → handleAnswer (runOps ops) p = runOps ops) ∧
    (pc.role = Role.initiator → pc.sig = SigState.haveLocalOffer →
      lookupA (handleAnswer (runOps ops) p).peerConnections p
          = some { pc with sig := SigState.stable } ∧
      (∀ q, q ≠ p → lookupA (handleAnswer (runOps ops) p).peerConnections q
          = lookupA (runOps ops).peerConnections q) ∧
      (handleAnswer (runOps ops) p).dataChannels = (runOps ops).dataChannels ∧
      (handleAnswer (runOps ops) p).inboundFiles = (runOps ops).inboundFiles ∧
      (handleAnswer (runOps ops) p).pendingMessages = (runOps ops).pendingMessages ∧
      (handleAnswer (runOps ops) p).delivered = (runOps ops).delivered ∧
      (handleAnswer (runOps ops) p).signalsSent = (runOps ops).signalsSent) := by
  have hInv := meshInv_runOps ops
  refine ⟨?_, ?_, ?_, ?_⟩
  · intro q hq
    simp only [handleAnswer, hq]
  · intro hrole
    have hsig : pc.sig ≠ SigState.haveLocalOffer := by
      intro hcontra
      have hini := hInv.2.2.2.2.2 (p, pc) (mem_of_lookupA _ _ _ h) hcontra
      rw [hrole] at hini
      exact absurd hini (by decide)
    simp only [handleAnswer, h]
    rw [if_neg hsig]
  · intro hsig
    simp only [handleAnswer, h]
    rw [if_neg hsig]
  · intro _ hsig
    have hform : handleAnswer (runOps ops) p
        = { runOps ops with peerConnections := updateA (runOps ops).peerConnections p (fun r => { r with sig := SigState.stable }) } := by
      simp only [handleAnswer, h]
      rw [if_pos hsig]
    have hl : lookupA (updateA (runOps ops).peerConnections p
          (fun r => { r with sig := SigState.stable })) p
        = some { pc with sig := SigState.stable } := by
      rw [lookupA_updateA_self, h]
      rfl
    refine ⟨?_, ?_, ?_, ?_, ?_, ?_, ?_⟩
    · rw [hform]
      exact hl
    · intro q hq
      rw [hform]
      exact lookupA_updateA_ne _ _ _ _ hq
    · rw [hform]
    · rw [hform]
    · rw [hform]
    · rw [hform]
    · rw [hform]

/-- C5 witness: the answer to this side's own outstanding offer completes the
initiator record's negotiation. -/
theorem handleAnswer_initiator_only_witness :
    lookupA (handleAnswer (runOps [Op.initiateCall "a"]) "a").peerConnections "a"
      = some (PC.mk 0 Role.initiator SigState.stable "new" []) := by
  have h := handleAnswer_initiator_only [Op.initiateCall "a"] "a"
    (PC.mk 0 Role.initiator SigState.haveLocalOffer "new" []) (by decide)
  exact (h.2.2.2 rfl rfl).1

end Anzen
